import Mathlib

/-!
Verification development for the ePDS authentication/session security layer.

Strings are modelled as lists of character codes (`Str := List Nat`),
bytes as natural numbers below 256.  Pure functions of the source become
Lean functions; the SQLite-backed token store becomes explicit state
passing over a `Db` record.  Functions of the repository that live
outside the provided sources (the `@magic-pds/shared` crypto and db
helpers, the demo's `lib/session.ts` and `lib/ratelimit.ts`) are
modelled from the specification and are marked as such in their doc
comments.
-/

/-- Character strings as lists of character codes. -/
abbrev Str := List Nat

/-- ASCII lowercasing, the embedding of JavaScript's
`String.prototype.toLowerCase` restricted to the ASCII range
(uppercase letters A-Z, codes 65-90, map to codes 97-122). -/
def asciiToLower (s : Str) : Str :=
  s.map (fun c => if 65 ≤ c ∧ c ≤ 90 then c + 32 else c)

/-- Modelled from the spec: `constantTimeEqual` / `timingSafeEqual` of the
shared crypto helpers (`@magic-pds/shared` `crypto.ts`, which is not under
`src/`).  Spec 4.1: it "must safely return `false` — never throw — when
lengths differ" and otherwise compares in a data-independent fashion: here
by or-folding the bytewise xors and comparing the accumulator with zero. -/
def timingSafeEqual (a b : Str) : Bool :=
  if a.length = b.length then
    decide
      (((List.zipWith (fun x y => Nat.xor x y) a b).foldl
        (fun acc d => acc ||| d) 0) = 0)
  else
    false

theorem nat_or_eq_zero (a b : Nat) : a ||| b = 0 ↔ a = 0 ∧ b = 0 := by
  constructor
  · intro h
    have hb : ∀ i, (a ||| b).testBit i = false := by
      intro i; rw [h]; simp
    simp only [Nat.testBit_or, Bool.or_eq_false_iff] at hb
    refine ⟨Nat.eq_of_testBit_eq fun i => ?_, Nat.eq_of_testBit_eq fun i => ?_⟩
    · simpa using (hb i).1
    · simpa using (hb i).2
  · rintro ⟨rfl, rfl⟩; simp

theorem foldl_or_eq_zero (l : List Nat) (acc : Nat) :
    l.foldl (fun acc d => acc ||| d) acc = 0 ↔ acc = 0 ∧ ∀ x ∈ l, x = 0 := by
  induction l generalizing acc with
  | nil => simp
  | cons y ys ih =>
    simp only [List.foldl_cons, ih, List.mem_cons, nat_or_eq_zero]
    constructor
    · rintro ⟨⟨h1, h2⟩, h3⟩
      exact ⟨h1, fun x hx => hx.elim (fun he => he ▸ h2) (h3 x)⟩
    · rintro ⟨h1, h2⟩
      exact ⟨⟨h1, h2 y (Or.inl rfl)⟩, fun x hx => h2 x (Or.inr hx)⟩

theorem zipWith_xor_zero (a b : Str) (hlen : a.length = b.length) :
    (∀ x ∈ List.zipWith (fun x y => Nat.xor x y) a b, x = 0) ↔ a = b := by
  induction a generalizing b with
  | nil =>
    cases b with
    | nil => simp
    | cons y ys => simp at hlen
  | cons x xs ih =>
    cases b with
    | nil => simp at hlen
    | cons y ys =>
      have hlen' : xs.length = ys.length := by simpa using hlen
      simp only [List.zipWith_cons_cons, List.mem_cons, List.cons.injEq]
      constructor
      · intro h
        have hx : x = y := Nat.xor_eq_zero.mp (h _ (Or.inl rfl))
        exact ⟨hx, (ih ys hlen').mp fun z hz => h z (Or.inr hz)⟩
      · rintro ⟨rfl, rfl⟩
        intro z hz
        rcases hz with rfl | hz
        · exact Nat.xor_self x
        · exact ((ih xs rfl).mpr rfl) z hz

/-- Soundness of the constant-time comparator: it returns `true` exactly on
equal strings. -/
theorem timingSafeEqual_iff (a b : Str) :
    timingSafeEqual a b = true ↔ a = b := by
  unfold timingSafeEqual
  by_cases hlen : a.length = b.length
  · simp only [hlen, if_pos, decide_eq_true_eq, foldl_or_eq_zero, true_and]
    rw [zipWith_xor_zero a b hlen]
  · rw [if_neg hlen]
    simp only [Bool.false_eq_true, false_iff]
    intro h
    exact hlen (by rw [h])

/-! ## OTP token service (`MagicLinkTokenService`, `src/unnamed/part_002`)

The service mutates a SQLite-backed store through the `MagicPdsDb`
collaborator.  That collaborator is not under `src/`; its operations are
modelled from spec section 6 ("Storage collaborator ... exposes
create/get/increment-attempts/mark-used/record-failure/
count-failures-in-window/delete-expired") as explicit state passing over
a `Db` record.  The service logic itself (`create`, `verifyCode`) is
translated from `src/unnamed/part_002` (the variant with the per-email
lockout, which the spec follows). -/

/-- One stored OTP challenge row (spec section 3, `OtpChallenge`;
`tokenHash`/`csrfToken` are the session id, which is the association key
in `Db.tokens` and is therefore not repeated inside the row). -/
structure TokenRow where
  email : Str
  expiresAt : Nat
  authRequestId : Str
  clientId : Option Str
  deviceInfo : Option Str
  codeHash : Option Str
  attempts : Nat
  used : Bool
deriving DecidableEq, Repr

/-- Modelled from the spec: the transactional row store behind
`MagicPdsDb`.  `tokens` associates session ids with challenge rows
(newest first); `failures` is the append-only per-email failure log of
`(email, timestamp)` entries (spec section 3, `IdentityFailureLog`). -/
structure Db where
  tokens : List (Str × TokenRow)
  failures : List (Str × Nat)
deriving DecidableEq, Repr

/-- Modelled from the spec: `db.getMagicLinkToken` — look a row up by
session id. -/
def lookupTok : List (Str × TokenRow) → Str → Option TokenRow
  | [], _ => none
  | (k, r) :: rest, sid => if k = sid then some r else lookupTok rest sid

/-- Modelled from the spec: in-place update of the row stored under a
session id (used for `incrementTokenAttempts` and
`markMagicLinkTokenUsed`). -/
def updateTok (f : TokenRow → TokenRow) :
    List (Str × TokenRow) → Str → List (Str × TokenRow)
  | [], _ => []
  | (k, r) :: rest, sid =>
    if k = sid then (k, f r) :: rest else (k, r) :: updateTok f rest sid

/-- The lockout window, `ONE_HOUR_MS` in `src/unnamed/part_002`. -/
def ONE_HOUR_MS : Nat := 60 * 60 * 1000

/-- `OTP_LOCKOUT_THRESHOLD` in `src/unnamed/part_002`: maximum total OTP
failures per email in a 1-hour window before lockout. -/
def OTP_LOCKOUT_THRESHOLD : Nat := 15

/-- Modelled from the spec: `db.getOtpFailureCount(email, windowMs)` —
the rolling count of logged failures for an email, ignoring entries
older than the window (spec section 3, `IdentityFailureLog`). -/
def failureCount (db : Db) (email : Str) (now windowMs : Nat) : Nat :=
  (db.failures.filter
    (fun f => decide (f.1 = email) && decide (now < f.2 + windowMs))).length

/-- `MagicLinkConfig` fields used by the token service. -/
structure MagicLinkConfig where
  expiryMinutes : Nat
  maxAttemptsPerToken : Nat
deriving DecidableEq, Repr

/-- Result type of `verifyCode`.  The source returns either a
`VerifyResult` record or `{error: string}` with six distinct message
strings; the messages are embedded as distinct constructors
(`invalidOrExpired` = "Invalid or expired code.", `alreadyUsed` = "This
code has already been used.", `expired` = "This code has expired...",
`locked` = "Too many failed attempts. Please try again later.",
`tooManyAttempts` = "Too many attempts. Please request a new code.",
`incorrectCode` = "Incorrect code. Please try again."). -/
inductive VerifyOutcome where
  | success (email authRequestId : Str) (clientId : Option Str)
  | invalidOrExpired
  | alreadyUsed
  | expired
  | locked
  | tooManyAttempts
  | incorrectCode
deriving DecidableEq, Repr

/-- `MagicLinkTokenService.verifyCode` (`src/unnamed/part_002`, lines
55-101, the lockout variant).  `hashT` stands for the shared `hashToken`
helper (not under `src/`), `now` for `Date.now()`.  Returns the outcome
together with the updated store. -/
def verifyCode (hashT : Str → Str) (cfg : MagicLinkConfig) (now : Nat)
    (db : Db) (sessionId submittedCode : Str) : VerifyOutcome × Db :=
  match lookupTok db.tokens sessionId with
  | none => (.invalidOrExpired, db)
  | some row =>
    if row.used then (.alreadyUsed, db)
    else if row.expiresAt < now then (.expired, db)
    else if OTP_LOCKOUT_THRESHOLD ≤ failureCount db row.email now ONE_HOUR_MS then
      (.locked, db)
    else
      let attempts := row.attempts + 1
      let db1 : Db :=
        { db with
          tokens := updateTok (fun r => { r with attempts := r.attempts + 1 })
            db.tokens sessionId }
      if cfg.maxAttemptsPerToken < attempts then
        (.tooManyAttempts,
         { db1 with
           tokens := updateTok (fun r => { r with used := true })
             db1.tokens sessionId })
      else
        match row.codeHash with
        | none =>
          (.incorrectCode,
           { db1 with failures := (row.email, now) :: db1.failures })
        | some ch =>
          if timingSafeEqual (hashT submittedCode) ch then
            (.success row.email row.authRequestId row.clientId,
             { db1 with
               tokens := updateTok (fun r => { r with used := true })
                 db1.tokens sessionId })
          else
            (.incorrectCode,
             { db1 with failures := (row.email, now) :: db1.failures })

/-- The 8-digit OTP code string for a random draw, part of the
spec-modelled `generateOtpCode` (shared `crypto.ts`, not under `src/`):
the design fixes the code at 8 decimal digits. -/
def otpDigits (rand : Nat) : Str :=
  (List.range 8).reverse.map (fun i => 48 + rand / 10 ^ i % 10)

/-- Modelled from the spec: `generateOtpCode` of the shared crypto
helpers — draws a fresh 8-digit numeric code and returns it together
with its hash (`{code, codeHash}`); the raw randomness is an explicit
argument. -/
def generateOtpCode (hashT : Str → Str) (rand : Nat) : Str × Str :=
  (otpDigits rand, hashT (otpDigits rand))

/-- One lowercase hexadecimal digit character. -/
def hexChar (d : Nat) : Nat :=
  if d < 10 then 48 + d else 87 + d

/-- Modelled from the spec: `generateCsrfToken` of the shared crypto
helpers — a 256-bit random identifier rendered as 64 lowercase hex
characters (32 random bytes, hex-encoded); the raw randomness is an
explicit argument. -/
def generateCsrfToken (rand : Nat) : Str :=
  (List.range 64).reverse.map (fun i => hexChar (rand / 16 ^ i % 16))

/-- `MagicLinkTokenService.create` (`src/unnamed/part_002`, lines 28-50):
draws a code and a session id, stores a challenge row holding the
lowercased email and the code hash, and returns `{code, sessionId}`.
`randCode`/`randSid` carry the randomness consumed by `generateOtpCode`
and `generateCsrfToken`. -/
def create (hashT : Str → Str) (cfg : MagicLinkConfig) (now : Nat)
    (randCode randSid : Nat) (db : Db) (email authRequestId : Str)
    (clientId deviceInfo : Option Str) : (Str × Str) × Db :=
  let code := (generateOtpCode hashT randCode).1
  let codeHash := (generateOtpCode hashT randCode).2
  let sessionId := generateCsrfToken randSid
  let expiresAt := now + cfg.expiryMinutes * 60 * 1000
  ((code, sessionId),
   { db with
     tokens := (sessionId,
       { email := asciiToLower email
         expiresAt := expiresAt
         authRequestId := authRequestId
         clientId := clientId
         deviceInfo := deviceInfo
         codeHash := some codeHash
         attempts := 0
         used := false }) :: db.tokens })

/-! ### Helper lemmas about the store operations -/

theorem lookupTok_updateTok_ne (f : TokenRow → TokenRow)
    (ts : List (Str × TokenRow)) (sid k : Str) (h : k ≠ sid) :
    lookupTok (updateTok f ts sid) k = lookupTok ts k := by
  induction ts with
  | nil => rfl
  | cons p rest ih =>
    obtain ⟨k', r⟩ := p
    by_cases hk : k' = sid
    · subst hk
      simp only [updateTok, if_pos rfl, lookupTok]
      rw [if_neg (fun hh => h hh.symm), if_neg (fun hh => h hh.symm)]
    · simp only [updateTok, if_neg hk, lookupTok]
      by_cases hk2 : k' = k
      · rw [if_pos hk2, if_pos hk2]
      · rw [if_neg hk2, if_neg hk2, ih]

theorem lookupTok_updateTok_eq (f : TokenRow → TokenRow)
    (ts : List (Str × TokenRow)) (sid : Str) :
    lookupTok (updateTok f ts sid) sid = (lookupTok ts sid).map f := by
  induction ts with
  | nil => rfl
  | cons p rest ih =>
    obtain ⟨k', r⟩ := p
    by_cases hk : k' = sid
    · simp [updateTok, hk, lookupTok]
    · simp only [updateTok, if_neg hk, lookupTok, if_neg hk, ih]

/-- A used challenge short-circuits `verifyCode`: the call returns
`AlreadyUsed` and leaves the store untouched (`row.used` is tested before
expiry, lockout, attempts and the hash comparison). -/
theorem verifyCode_of_used (hashT : Str → Str) (cfg : MagicLinkConfig)
    (now : Nat) (db : Db) (sid c : Str) (row : TokenRow)
    (hl : lookupTok db.tokens sid = some row) (hu : row.used = true) :
    verifyCode hashT cfg now db sid c = (.alreadyUsed, db) := by
  unfold verifyCode
  rw [hl]
  simp [hu]

/-- No `verifyCode` call (for any session id) disturbs a used row. -/
theorem verifyCode_preserves_used (hashT : Str → Str) (cfg : MagicLinkConfig)
    (now : Nat) (db : Db) (sid' c sid : Str) (row : TokenRow)
    (hl : lookupTok db.tokens sid = some row) (hu : row.used = true) :
    lookupTok (verifyCode hashT cfg now db sid' c).2.tokens sid = some row := by
  by_cases hs : sid = sid'
  · subst hs
    rw [verifyCode_of_used hashT cfg now db sid c row hl hu]
    exact hl
  · unfold verifyCode
    cases hl' : lookupTok db.tokens sid' <;> dsimp only <;> repeat' split
    all_goals simp [lookupTok_updateTok_ne, hs, hl]

/-- A sequence of `verifyCode` calls, applied in order (each entry is
`(now, sessionId, submittedCode)`). -/
def runVerifies (hashT : Str → Str) (cfg : MagicLinkConfig) :
    List (Nat × Str × Str) → Db → Db
  | [], db => db
  | (n, sid, c) :: rest, db =>
    runVerifies hashT cfg rest (verifyCode hashT cfg n db sid c).2

theorem runVerifies_preserves_used (hashT : Str → Str) (cfg : MagicLinkConfig)
    (calls : List (Nat × Str × Str)) (db : Db) (sid : Str) (row : TokenRow)
    (hl : lookupTok db.tokens sid = some row) (hu : row.used = true) :
    lookupTok (runVerifies hashT cfg calls db).tokens sid = some row := by
  induction calls generalizing db with
  | nil => exact hl
  | cons call rest ih =>
    obtain ⟨n, sid', c⟩ := call
    exact ih _ (verifyCode_preserves_used hashT cfg n db sid' c sid row hl hu)

/-- Evaluation of `verifyCode` with the issued code on a freshly created
challenge: it succeeds and the resulting store holds the same row with
`attempts = 1` and `used = true`, the failure log untouched. -/
theorem verifyCode_create_success (hashT : Str → Str) (cfg : MagicLinkConfig)
    (now0 now1 randCode randSid : Nat) (db0 : Db)
    (email authRequestId : Str) (clientId deviceInfo : Option Str)
    (hmax : 1 ≤ cfg.maxAttemptsPerToken)
    (hexp : ¬ now0 + cfg.expiryMinutes * 60 * 1000 < now1)
    (hlock : failureCount db0 (asciiToLower email) now1 ONE_HOUR_MS
      < OTP_LOCKOUT_THRESHOLD) :
    verifyCode hashT cfg now1
      (create hashT cfg now0 randCode randSid db0 email authRequestId
        clientId deviceInfo).2
      (create hashT cfg now0 randCode randSid db0 email authRequestId
        clientId deviceInfo).1.2
      (create hashT cfg now0 randCode randSid db0 email authRequestId
        clientId deviceInfo).1.1
    = (.success (asciiToLower email) authRequestId clientId,
       { tokens := ((create hashT cfg now0 randCode randSid db0 email
            authRequestId clientId deviceInfo).1.2,
          { email := asciiToLower email
            expiresAt := now0 + cfg.expiryMinutes * 60 * 1000
            authRequestId := authRequestId
            clientId := clientId
            deviceInfo := deviceInfo
            codeHash := some (hashT (create hashT cfg now0 randCode randSid
              db0 email authRequestId clientId deviceInfo).1.1)
            attempts := 1
            used := true }) :: db0.tokens
         failures := db0.failures }) := by
  unfold create verifyCode
  dsimp only
  rw [lookupTok]
  rw [if_pos rfl]
  dsimp only
  rw [if_neg (by simp)]
  rw [if_neg hexp]
  rw [if_neg (by simpa [failureCount] using Nat.not_le.mpr hlock)]
  rw [if_neg (by omega)]
  rw [if_pos (show timingSafeEqual (hashT (generateOtpCode hashT randCode).1)
      (generateOtpCode hashT randCode).2 = true from
      (timingSafeEqual_iff _ _).mpr rfl)]
  simp [updateTok, generateOtpCode]

/-- Evaluation of `verifyCode` when the per-token attempt limit is
exceeded: it burns the challenge (`used := true`) and reports
`TooManyAttempts`. -/
theorem verifyCode_eq_tooMany (hashT : Str → Str) (cfg : MagicLinkConfig)
    (now : Nat) (db : Db) (sid c : Str) (row : TokenRow)
    (hl : lookupTok db.tokens sid = some row) (hu : row.used = false)
    (he : ¬ row.expiresAt < now)
    (hlck : ¬ OTP_LOCKOUT_THRESHOLD ≤ failureCount db row.email now ONE_HOUR_MS)
    (hatt : cfg.maxAttemptsPerToken < row.attempts + 1) :
    verifyCode hashT cfg now db sid c =
      (.tooManyAttempts,
       { db with
         tokens :=
           updateTok (fun r => { r with used := true })
             (updateTok (fun r => { r with attempts := r.attempts + 1 })
               db.tokens sid) sid }) := by
  unfold verifyCode
  rw [hl]
  dsimp only
  rw [if_neg (by simp [hu]), if_neg he, if_neg hlck, if_pos hatt]

/-- Evaluation of `verifyCode` on a wrong code: the attempt counter
advances and a failure-log entry is appended for the row's email. -/
theorem verifyCode_eq_incorrect (hashT : Str → Str) (cfg : MagicLinkConfig)
    (now : Nat) (db : Db) (sid c : Str) (row : TokenRow) (ch : Str)
    (hl : lookupTok db.tokens sid = some row) (hu : row.used = false)
    (he : ¬ row.expiresAt < now)
    (hlck : ¬ OTP_LOCKOUT_THRESHOLD ≤ failureCount db row.email now ONE_HOUR_MS)
    (hatt : ¬ cfg.maxAttemptsPerToken < row.attempts + 1)
    (hch : row.codeHash = some ch) (hne : hashT c ≠ ch) :
    verifyCode hashT cfg now db sid c =
      (.incorrectCode,
       { db with
         tokens :=
           updateTok (fun r => { r with attempts := r.attempts + 1 })
             db.tokens sid
         failures := (row.email, now) :: db.failures }) := by
  have hfalse : timingSafeEqual (hashT c) ch = false := by
    cases hb : timingSafeEqual (hashT c) ch
    · rfl
    · exact absurd ((timingSafeEqual_iff _ _).mp hb) hne
  unfold verifyCode
  rw [hl]
  dsimp only
  rw [if_neg (by simp [hu]), if_neg he, if_neg hlck, if_neg hatt, hch]
  dsimp only
  rw [hfalse]
  simp

/-- `n` repeated `verifyCode` calls with a fixed session id and submitted
code, all at the same instant. -/
def iterVerify (hashT : Str → Str) (cfg : MagicLinkConfig) (now : Nat)
    (sid c : Str) : Nat → Db → Db
  | 0, db => db
  | n + 1, db =>
    (verifyCode hashT cfg now (iterVerify hashT cfg now sid c n db) sid c).2

/-- After `k ≤ maxAttemptsPerToken` wrong-code calls on a fresh challenge,
the row shows `attempts = k` and the email has `k` logged failures. -/
theorem iterWrong_invariant (hashT : Str → Str) (cfg : MagicLinkConfig)
    (now : Nat) (db : Db) (sid wrong : Str) (row : TokenRow) (goodHash : Str)
    (hl : lookupTok db.tokens sid = some row)
    (hu : row.used = false) (he : ¬ row.expiresAt < now)
    (hch : row.codeHash = some goodHash)
    (hne : hashT wrong ≠ goodHash)
    (ha : row.attempts = 0)
    (hf : failureCount db row.email now ONE_HOUR_MS = 0)
    (hmax15 : cfg.maxAttemptsPerToken < OTP_LOCKOUT_THRESHOLD) :
    ∀ k, k ≤ cfg.maxAttemptsPerToken →
      lookupTok (iterVerify hashT cfg now sid wrong k db).tokens sid
        = some { row with attempts := k } ∧
      failureCount (iterVerify hashT cfg now sid wrong k db) row.email now
        ONE_HOUR_MS = k := by
  intro k
  induction k with
  | zero =>
    intro _
    refine ⟨?_, hf⟩
    show lookupTok db.tokens sid = _
    rw [hl, ← ha]
  | succ k ih =>
    intro hk
    obtain ⟨ih1, ih2⟩ := ih (Nat.le_of_succ_le hk)
    have hrw := verifyCode_eq_incorrect hashT cfg now
      (iterVerify hashT cfg now sid wrong k db) sid wrong
      { row with attempts := k } goodHash ih1 (by simpa using hu)
      (by simpa using he)
      (by simp only [ih2]; omega)
      (by simp only []; omega)
      (by simpa using hch) hne
    constructor
    · show lookupTok (verifyCode hashT cfg now
        (iterVerify hashT cfg now sid wrong k db) sid wrong).2.tokens sid = _
      rw [hrw]
      dsimp only
      rw [lookupTok_updateTok_eq]
      rw [ih1]
      simp
    · show failureCount (verifyCode hashT cfg now
        (iterVerify hashT cfg now sid wrong k db) sid wrong).2 row.email now
        ONE_HOUR_MS = k + 1
      rw [hrw]
      have hwin : now < now + ONE_HOUR_MS := by
        have : 0 < ONE_HOUR_MS := by norm_num [ONE_HOUR_MS]
        omega
      simp only [failureCount, List.filter_cons]
      rw [if_pos (by
        simp only [Bool.and_eq_true, decide_eq_true_eq]
        exact ⟨trivial, hwin⟩)]
      simp only [List.length_cons]
      have h2 := ih2
      simp only [failureCount] at h2
      omega

/-! ### Claims about the OTP token service -/

/-- C1: For every challenge created by `create`, `verifyCode(sessionId,
code)` with the issued code succeeds exactly once — the first call (while
the challenge is live: unexpired, email not locked out, attempt budget
positive) returns the `VerifyResult` and flips `used` from `false` (as
stored by `create`) to `true` — and every subsequent `verifyCode` call
with the same sessionId, with any code at any time and after any further
interleaved `verifyCode` traffic, returns the `AlreadyUsed` error. -/
theorem claim_C1 (hashT : Str → Str) (cfg : MagicLinkConfig)
    (now0 now1 randCode randSid : Nat) (db0 : Db)
    (email authRequestId : Str) (clientId deviceInfo : Option Str)
    (hmax : 1 ≤ cfg.maxAttemptsPerToken)
    (hexp : ¬ now0 + cfg.expiryMinutes * 60 * 1000 < now1)
    (hlock : failureCount db0 (asciiToLower email) now1 ONE_HOUR_MS
      < OTP_LOCKOUT_THRESHOLD) :
    verifyCode hashT cfg now1
      (create hashT cfg now0 randCode randSid db0 email authRequestId
        clientId deviceInfo).2
      (create hashT cfg now0 randCode randSid db0 email authRequestId
        clientId deviceInfo).1.2
      (create hashT cfg now0 randCode randSid db0 email authRequestId
        clientId deviceInfo).1.1
    = (.success (asciiToLower email) authRequestId clientId,
       { tokens := ((create hashT cfg now0 randCode randSid db0 email
            authRequestId clientId deviceInfo).1.2,
          { email := asciiToLower email
            expiresAt := now0 + cfg.expiryMinutes * 60 * 1000
            authRequestId := authRequestId
            clientId := clientId
            deviceInfo := deviceInfo
            codeHash := some (hashT (create hashT cfg now0 randCode randSid
              db0 email authRequestId clientId deviceInfo).1.1)
            attempts := 1
            used := true }) :: db0.tokens
         failures := db0.failures }) ∧
    ∀ (calls : List (Nat × Str × Str)) (now2 : Nat) (c2 : Str),
      (verifyCode hashT cfg now2
        (runVerifies hashT cfg calls
          (verifyCode hashT cfg now1
            (create hashT cfg now0 randCode randSid db0 email authRequestId
              clientId deviceInfo).2
            (create hashT cfg now0 randCode randSid db0 email authRequestId
              clientId deviceInfo).1.2
            (create hashT cfg now0 randCode randSid db0 email authRequestId
              clientId deviceInfo).1.1).2)
        (create hashT cfg now0 randCode randSid db0 email authRequestId
          clientId deviceInfo).1.2 c2).1 = .alreadyUsed := by
  have heq := verifyCode_create_success hashT cfg now0 now1 randCode randSid
    db0 email authRequestId clientId deviceInfo hmax hexp hlock
  refine ⟨heq, ?_⟩
  intro calls now2 c2
  have hlk : lookupTok
      (verifyCode hashT cfg now1
        (create hashT cfg now0 randCode randSid db0 email authRequestId
          clientId deviceInfo).2
        (create hashT cfg now0 randCode randSid db0 email authRequestId
          clientId deviceInfo).1.2
        (create hashT cfg now0 randCode randSid db0 email authRequestId
          clientId deviceInfo).1.1).2.tokens
      (create hashT cfg now0 randCode randSid db0 email authRequestId
        clientId deviceInfo).1.2
      = some { email := asciiToLower email
               expiresAt := now0 + cfg.expiryMinutes * 60 * 1000
               authRequestId := authRequestId
               clientId := clientId
               deviceInfo := deviceInfo
               codeHash := some (hashT (create hashT cfg now0 randCode randSid
                 db0 email authRequestId clientId deviceInfo).1.1)
               attempts := 1
               used := true } := by
    rw [heq]
    simp [lookupTok]
  have hpres := runVerifies_preserves_used hashT cfg calls _ _ _ hlk rfl
  rw [verifyCode_of_used hashT cfg now2 _ _ c2 _ hpres rfl]

/-- Witness for C1 at a concrete input: config `{expiryMinutes := 10,
maxAttemptsPerToken := 5}`, creation at time 0, verification at time 1,
empty initial store, email "a" (code 97). -/
theorem claim_C1_witness :
    (1 ≤ (MagicLinkConfig.mk 10 5).maxAttemptsPerToken) ∧
    (¬ 0 + (MagicLinkConfig.mk 10 5).expiryMinutes * 60 * 1000 < 1) ∧
    (failureCount ⟨[], []⟩ (asciiToLower [97]) 1 ONE_HOUR_MS
      < OTP_LOCKOUT_THRESHOLD) ∧
    (verifyCode id ⟨10, 5⟩ 1
      (create id ⟨10, 5⟩ 0 12345678 999 ⟨[], []⟩ [97] [114] none none).2
      (create id ⟨10, 5⟩ 0 12345678 999 ⟨[], []⟩ [97] [114] none none).1.2
      (create id ⟨10, 5⟩ 0 12345678 999 ⟨[], []⟩ [97] [114] none none).1.1
    = (.success (asciiToLower [97]) [114] none,
       { tokens := ((create id ⟨10, 5⟩ 0 12345678 999 ⟨[], []⟩ [97] [114]
            none none).1.2,
          { email := asciiToLower [97]
            expiresAt := 0 + (MagicLinkConfig.mk 10 5).expiryMinutes * 60 * 1000
            authRequestId := [114]
            clientId := none
            deviceInfo := none
            codeHash := some (id (create id ⟨10, 5⟩ 0 12345678 999 ⟨[], []⟩
              [97] [114] none none).1.1)
            attempts := 1
            used := true }) :: ([] : List (Str × TokenRow))
         failures := [] }) ∧
    ∀ (calls : List (Nat × Str × Str)) (now2 : Nat) (c2 : Str),
      (verifyCode id ⟨10, 5⟩ now2
        (runVerifies id ⟨10, 5⟩ calls
          (verifyCode id ⟨10, 5⟩ 1
            (create id ⟨10, 5⟩ 0 12345678 999 ⟨[], []⟩ [97] [114]
              none none).2
            (create id ⟨10, 5⟩ 0 12345678 999 ⟨[], []⟩ [97] [114]
              none none).1.2
            (create id ⟨10, 5⟩ 0 12345678 999 ⟨[], []⟩ [97] [114]
              none none).1.1).2)
        (create id ⟨10, 5⟩ 0 12345678 999 ⟨[], []⟩ [97] [114]
          none none).1.2 c2).1 = .alreadyUsed) :=
  ⟨by decide, by decide, by decide,
   claim_C1 id ⟨10, 5⟩ 0 1 12345678 999 ⟨[], []⟩ [97] [114] none none
     (by decide) (by decide) (by decide)⟩

/-- C2, counterexample to the claim as stated: with
`maxAttemptsPerToken = 1`, after `maxAttemptsPerToken + 1 = 2` wrong-code
calls the challenge has been burned (`used := true`), and the next call —
with the correct code — returns `AlreadyUsed`, not `TooManyAttempts`. -/
theorem claim_C2_counterexample :
    (let cfg : MagicLinkConfig := ⟨10, 1⟩
     let cr := create id cfg 0 12345678 999 ⟨[], []⟩ [97] [114] none none
     let wrong : Str := [48, 48, 48, 48, 48, 48, 48, 48]
     let db2 := iterVerify id cfg 0 cr.1.2 wrong 2 cr.2
     (verifyCode id cfg 0 db2 cr.1.2 cr.1.1).1 = VerifyOutcome.alreadyUsed ∧
     VerifyOutcome.alreadyUsed ≠ VerifyOutcome.tooManyAttempts) := by
  decide

/-- C2 (amended): for a fresh challenge (no prior attempts, no recent
failures for its email, `maxAttemptsPerToken` below the lockout
threshold), after `maxAttemptsPerToken` wrong-code calls the
`(maxAttemptsPerToken + 1)`-th call returns `TooManyAttempts` and burns
the challenge (`used := true`); every call after that — even with the
correct code — returns `AlreadyUsed`. -/
theorem claim_C2 (hashT : Str → Str) (cfg : MagicLinkConfig)
    (now : Nat) (db : Db) (sid wrong : Str) (row : TokenRow) (goodHash : Str)
    (hl : lookupTok db.tokens sid = some row)
    (hu : row.used = false) (he : ¬ row.expiresAt < now)
    (hch : row.codeHash = some goodHash)
    (hne : hashT wrong ≠ goodHash)
    (ha : row.attempts = 0)
    (hf : failureCount db row.email now ONE_HOUR_MS = 0)
    (hmax15 : cfg.maxAttemptsPerToken < OTP_LOCKOUT_THRESHOLD) :
    (verifyCode hashT cfg now
      (iterVerify hashT cfg now sid wrong cfg.maxAttemptsPerToken db)
      sid wrong).1 = .tooManyAttempts ∧
    lookupTok (verifyCode hashT cfg now
      (iterVerify hashT cfg now sid wrong cfg.maxAttemptsPerToken db)
      sid wrong).2.tokens sid
      = some { row with attempts := cfg.maxAttemptsPerToken + 1, used := true } ∧
    ∀ (calls : List (Nat × Str × Str)) (now2 : Nat) (c2 : Str),
      (verifyCode hashT cfg now2
        (runVerifies hashT cfg calls
          (verifyCode hashT cfg now
            (iterVerify hashT cfg now sid wrong cfg.maxAttemptsPerToken db)
            sid wrong).2)
        sid c2).1 = .alreadyUsed := by
  obtain ⟨h1, h2⟩ := iterWrong_invariant hashT cfg now db sid wrong row
    goodHash hl hu he hch hne ha hf hmax15 cfg.maxAttemptsPerToken
    (Nat.le_refl _)
  have hrw := verifyCode_eq_tooMany hashT cfg now
    (iterVerify hashT cfg now sid wrong cfg.maxAttemptsPerToken db)
    sid wrong { row with attempts := cfg.maxAttemptsPerToken }
    h1 (by simpa using hu) (by simpa using he)
    (by simp only [h2]; omega)
    (by simp only []; omega)
  have hlk : lookupTok (verifyCode hashT cfg now
      (iterVerify hashT cfg now sid wrong cfg.maxAttemptsPerToken db)
      sid wrong).2.tokens sid
      = some
        { row with attempts := cfg.maxAttemptsPerToken + 1, used := true } := by
    rw [hrw]
    dsimp only
    rw [lookupTok_updateTok_eq, lookupTok_updateTok_eq, h1]
    simp
  refine ⟨by rw [hrw], hlk, ?_⟩
  intro calls now2 c2
  have hpres := runVerifies_preserves_used hashT cfg calls _ sid
    { row with attempts := cfg.maxAttemptsPerToken + 1, used := true }
    hlk (by simp)
  rw [verifyCode_of_used hashT cfg now2 _ sid c2 _ hpres (by simp)]

/-- Witness for the amended C2 at a concrete input: a fresh challenge for
email "a" with code hash "h" (code 104), limit 5, all calls at time 0. -/
theorem claim_C2_witness :
    (lookupTok [([115], TokenRow.mk [97] 100 [114] none none (some [104]) 0
      false)] [115] = some (TokenRow.mk [97] 100 [114] none none (some [104])
      0 false)) ∧
    ((TokenRow.mk [97] 100 [114] none none (some [104]) 0 false).used
      = false) ∧
    (¬ (TokenRow.mk [97] 100 [114] none none (some [104]) 0
      false).expiresAt < 0) ∧
    ((TokenRow.mk [97] 100 [114] none none (some [104]) 0 false).codeHash
      = some [104]) ∧
    (id [48] ≠ [104]) ∧
    ((TokenRow.mk [97] 100 [114] none none (some [104]) 0 false).attempts
      = 0) ∧
    (failureCount ⟨[([115], TokenRow.mk [97] 100 [114] none none
      (some [104]) 0 false)], []⟩ (TokenRow.mk [97] 100 [114] none none
      (some [104]) 0 false).email 0 ONE_HOUR_MS = 0) ∧
    ((MagicLinkConfig.mk 10 5).maxAttemptsPerToken
      < OTP_LOCKOUT_THRESHOLD) ∧
    ((verifyCode id ⟨10, 5⟩ 0
      (iterVerify id ⟨10, 5⟩ 0 [115] [48]
        (MagicLinkConfig.mk 10 5).maxAttemptsPerToken
        ⟨[([115], TokenRow.mk [97] 100 [114] none none (some [104]) 0
          false)], []⟩)
      [115] [48]).1 = .tooManyAttempts ∧
    lookupTok (verifyCode id ⟨10, 5⟩ 0
      (iterVerify id ⟨10, 5⟩ 0 [115] [48]
        (MagicLinkConfig.mk 10 5).maxAttemptsPerToken
        ⟨[([115], TokenRow.mk [97] 100 [114] none none (some [104]) 0
          false)], []⟩)
      [115] [48]).2.tokens [115]
      = some
        { TokenRow.mk [97] 100 [114] none none (some [104]) 0 false with
            attempts := (MagicLinkConfig.mk 10 5).maxAttemptsPerToken + 1, used := true } ∧
    ∀ (calls : List (Nat × Str × Str)) (now2 : Nat) (c2 : Str),
      (verifyCode id ⟨10, 5⟩ now2
        (runVerifies id ⟨10, 5⟩ calls
          (verifyCode id ⟨10, 5⟩ 0
            (iterVerify id ⟨10, 5⟩ 0 [115] [48]
              (MagicLinkConfig.mk 10 5).maxAttemptsPerToken
              ⟨[([115], TokenRow.mk [97] 100 [114] none none (some [104]) 0
                false)], []⟩)
            [115] [48]).2)
        [115] c2).1 = .alreadyUsed) :=
  ⟨by decide, by decide, by decide, by decide, by decide, by decide,
   by decide, by decide,
   claim_C2 id ⟨10, 5⟩ 0
     ⟨[([115], TokenRow.mk [97] 100 [114] none none (some [104]) 0 false)],
      []⟩ [115] [48]
     (TokenRow.mk [97] 100 [114] none none (some [104]) 0 false) [104]
     (by decide) (by decide) (by decide) (by decide) (by decide) (by decide)
     (by decide) (by decide)⟩

/-- C3: once an email has accumulated `OTP_LOCKOUT_THRESHOLD` (15) or
more logged failures inside the one-hour window, `verifyCode` on any
live (unused, unexpired) challenge for that email — a brand-new one
included — returns the `Locked` error, and the store is returned exactly
as it was: no attempt is consumed, no row is touched, no failure is
logged.  The lockout test precedes the attempt increment in the source. -/
theorem claim_C3 (hashT : Str → Str) (cfg : MagicLinkConfig) (now : Nat)
    (db : Db) (sid code : Str) (row : TokenRow)
    (hl : lookupTok db.tokens sid = some row)
    (hu : row.used = false)
    (he : ¬ row.expiresAt < now)
    (hc : OTP_LOCKOUT_THRESHOLD ≤ failureCount db row.email now ONE_HOUR_MS) :
    verifyCode hashT cfg now db sid code = (.locked, db) := by
  unfold verifyCode
  rw [hl]
  dsimp only
  rw [if_neg (by simp [hu]), if_neg he, if_pos hc]

/-- Witness for C3 at a concrete input: a fresh (attempts 0) challenge for
email "a" whose failure log already holds 15 entries inside the window. -/
theorem claim_C3_witness :
    (lookupTok [([115], TokenRow.mk [97] 100 [114] none none (some [104]) 0
      false)] [115] = some (TokenRow.mk [97] 100 [114] none none (some [104])
      0 false)) ∧
    ((TokenRow.mk [97] 100 [114] none none (some [104]) 0 false).used
      = false) ∧
    (¬ (TokenRow.mk [97] 100 [114] none none (some [104]) 0
      false).expiresAt < 0) ∧
    (OTP_LOCKOUT_THRESHOLD ≤ failureCount
      ⟨[([115], TokenRow.mk [97] 100 [114] none none (some [104]) 0 false)],
       List.replicate 15 ([97], 0)⟩
      (TokenRow.mk [97] 100 [114] none none (some [104]) 0 false).email 0
      ONE_HOUR_MS) ∧
    verifyCode id ⟨10, 5⟩ 0
      ⟨[([115], TokenRow.mk [97] 100 [114] none none (some [104]) 0 false)],
       List.replicate 15 ([97], 0)⟩ [115] [104]
      = (.locked,
         ⟨[([115], TokenRow.mk [97] 100 [114] none none (some [104]) 0
           false)], List.replicate 15 ([97], 0)⟩) :=
  ⟨by decide, by decide, by decide, by decide,
   claim_C3 id ⟨10, 5⟩ 0
     ⟨[([115], TokenRow.mk [97] 100 [114] none none (some [104]) 0 false)],
      List.replicate 15 ([97], 0)⟩ [115] [104]
     (TokenRow.mk [97] 100 [114] none none (some [104]) 0 false)
     (by decide) (by decide) (by decide) (by decide)⟩

/-- C4, counterexample to the claim as stated: a challenge that was
verified successfully (so `used = true`) and whose `expiresAt` has since
passed answers `AlreadyUsed`, not `Expired` — `used` is checked before
expiry.  Here: created at 0 with a 10-minute TTL (expiry 600000), used at
time 1, queried with the correct code at time 600001. -/
theorem claim_C4_counterexample :
    (let cr := create id ⟨10, 5⟩ 0 12345678 999 ⟨[], []⟩ [97] [114] none none
     let db1 := (verifyCode id ⟨10, 5⟩ 1 cr.2 cr.1.2 cr.1.1).2
     lookupTok db1.tokens cr.1.2 =
       some { email := [97], expiresAt := 600000, authRequestId := [114],
              clientId := none, deviceInfo := none,
              codeHash := some [49, 50, 51, 52, 53, 54, 55, 56],
              attempts := 1, used := true } ∧
     600000 < 600001 ∧
     (verifyCode id ⟨10, 5⟩ 600001 db1 cr.1.2 cr.1.1).1
       = VerifyOutcome.alreadyUsed ∧
     VerifyOutcome.alreadyUsed ≠ VerifyOutcome.expired) := by
  decide

/-- C4 (amended): for every not-yet-used challenge whose `expiresAt` has
passed, `verifyCode` with any submitted code — the correct one included —
returns the `Expired` error and leaves the store untouched (a challenge
that is both used and expired returns `AlreadyUsed` instead, as `used` is
checked first). -/
theorem claim_C4 (hashT : Str → Str) (cfg : MagicLinkConfig) (now : Nat)
    (db : Db) (sid code : Str) (row : TokenRow)
    (hl : lookupTok db.tokens sid = some row)
    (hu : row.used = false)
    (he : row.expiresAt < now) :
    verifyCode hashT cfg now db sid code = (.expired, db) := by
  unfold verifyCode
  rw [hl]
  dsimp only
  rw [if_neg (by simp [hu]), if_pos he]

/-- Witness for the amended C4 at a concrete input: an unused challenge
with `expiresAt = 100`, queried at time 101 with its correct code. -/
theorem claim_C4_witness :
    (lookupTok [([115], TokenRow.mk [97] 100 [114] none none (some [104]) 0
      false)] [115] = some (TokenRow.mk [97] 100 [114] none none (some [104])
      0 false)) ∧
    ((TokenRow.mk [97] 100 [114] none none (some [104]) 0 false).used
      = false) ∧
    ((TokenRow.mk [97] 100 [114] none none (some [104]) 0 false).expiresAt
      < 101) ∧
    verifyCode id ⟨10, 5⟩ 101
      ⟨[([115], TokenRow.mk [97] 100 [114] none none (some [104]) 0 false)],
       []⟩ [115] [104]
      = (.expired,
         ⟨[([115], TokenRow.mk [97] 100 [114] none none (some [104]) 0
           false)], []⟩) :=
  ⟨by decide, by decide, by decide,
   claim_C4 id ⟨10, 5⟩ 101
     ⟨[([115], TokenRow.mk [97] 100 [114] none none (some [104]) 0 false)],
      []⟩ [115] [104]
     (TokenRow.mk [97] 100 [114] none none (some [104]) 0 false)
     (by decide) (by decide) (by decide)⟩

/-- C9: `create` always returns an 8-character numeric code (digit codes
48-57) and a 64-character lowercase-hex session id (256 bits), and the
only state it adds is one challenge row carrying
`expiresAt = now + expiryMinutes minutes`, `attempts = 0`, `used = false`
and the hash of the code (`codeHash = some (hashT code)`) — the raw code
itself is not persisted anywhere (the failure log is untouched and the
row has no raw-code field). -/
theorem claim_C9 (hashT : Str → Str) (cfg : MagicLinkConfig)
    (now randCode randSid : Nat) (db : Db) (email authRequestId : Str)
    (clientId deviceInfo : Option Str) :
    (create hashT cfg now randCode randSid db email authRequestId clientId
      deviceInfo).1.1.length = 8 ∧
    (∀ c ∈ (create hashT cfg now randCode randSid db email authRequestId
      clientId deviceInfo).1.1, 48 ≤ c ∧ c ≤ 57) ∧
    (create hashT cfg now randCode randSid db email authRequestId clientId
      deviceInfo).1.2.length = 64 ∧
    (∀ c ∈ (create hashT cfg now randCode randSid db email authRequestId
      clientId deviceInfo).1.2, (48 ≤ c ∧ c ≤ 57) ∨ (97 ≤ c ∧ c ≤ 102)) ∧
    (create hashT cfg now randCode randSid db email authRequestId clientId
      deviceInfo).2.tokens
      = ((create hashT cfg now randCode randSid db email authRequestId
          clientId deviceInfo).1.2,
         { email := asciiToLower email
           expiresAt := now + cfg.expiryMinutes * 60 * 1000
           authRequestId := authRequestId
           clientId := clientId
           deviceInfo := deviceInfo
           codeHash := some (hashT (create hashT cfg now randCode randSid db
             email authRequestId clientId deviceInfo).1.1)
           attempts := 0
           used := false }) :: db.tokens ∧
    (create hashT cfg now randCode randSid db email authRequestId clientId
      deviceInfo).2.failures = db.failures := by
  refine ⟨?_, ?_, ?_, ?_, rfl, rfl⟩
  · simp [create, generateOtpCode, otpDigits]
  · intro c hc
    simp only [create, generateOtpCode, otpDigits, List.mem_map] at hc
    obtain ⟨i, -, rfl⟩ := hc
    omega
  · simp [create, generateCsrfToken]
  · intro c hc
    simp only [create, generateCsrfToken, List.mem_map] at hc
    obtain ⟨i, -, rfl⟩ := hc
    have hd : randSid / 16 ^ i % 16 < 16 := Nat.mod_lt _ (by norm_num)
    unfold hexChar
    split <;> omega

/-- C10: `create` lowercases the email before storing it, so a successful
`verifyCode` on the issued code returns a `VerifyResult` whose `email` is
the lowercased form of the email given to `create`, with `authRequestId`
and `clientId` passed through unchanged. -/
theorem claim_C10 (hashT : Str → Str) (cfg : MagicLinkConfig)
    (now0 now1 randCode randSid : Nat) (db0 : Db)
    (email authRequestId : Str) (clientId deviceInfo : Option Str)
    (hmax : 1 ≤ cfg.maxAttemptsPerToken)
    (hexp : ¬ now0 + cfg.expiryMinutes * 60 * 1000 < now1)
    (hlock : failureCount db0 (asciiToLower email) now1 ONE_HOUR_MS
      < OTP_LOCKOUT_THRESHOLD) :
    (verifyCode hashT cfg now1
      (create hashT cfg now0 randCode randSid db0 email authRequestId
        clientId deviceInfo).2
      (create hashT cfg now0 randCode randSid db0 email authRequestId
        clientId deviceInfo).1.2
      (create hashT cfg now0 randCode randSid db0 email authRequestId
        clientId deviceInfo).1.1).1
    = .success (asciiToLower email) authRequestId clientId := by
  rw [verifyCode_create_success hashT cfg now0 now1 randCode randSid db0
    email authRequestId clientId deviceInfo hmax hexp hlock]

/-- Witness for C10 at a concrete input: email "Ab" (codes 65, 98) comes
back lowercased as "ab" (codes 97, 98). -/
theorem claim_C10_witness :
    (1 ≤ (MagicLinkConfig.mk 10 5).maxAttemptsPerToken) ∧
    (¬ 0 + (MagicLinkConfig.mk 10 5).expiryMinutes * 60 * 1000 < 1) ∧
    (failureCount ⟨[], []⟩ (asciiToLower [65, 98]) 1 ONE_HOUR_MS
      < OTP_LOCKOUT_THRESHOLD) ∧
    (verifyCode id ⟨10, 5⟩ 1
      (create id ⟨10, 5⟩ 0 12345678 999 ⟨[], []⟩ [65, 98] [114]
        (some [99]) none).2
      (create id ⟨10, 5⟩ 0 12345678 999 ⟨[], []⟩ [65, 98] [114]
        (some [99]) none).1.2
      (create id ⟨10, 5⟩ 0 12345678 999 ⟨[], []⟩ [65, 98] [114]
        (some [99]) none).1.1).1
    = .success (asciiToLower [65, 98]) [114] (some [99]) :=
  ⟨by decide, by decide, by decide,
   claim_C10 id ⟨10, 5⟩ 0 1 12345678 999 ⟨[], []⟩ [65, 98] [114]
     (some [99]) none (by decide) (by decide) (by decide)⟩

/-! ## Rate limiter (`checkRateLimit`, `packages/demo/src/lib/ratelimit.ts`)

The implementation file is not under `src/` (only its test is); the
limiter is modelled from spec section 4.5: a token bucket per key holding
up to `limit` tokens, lazily refilled in full once `windowMs` has elapsed
since the last refill, with `retryAfterSeconds` computed from the
configured window (`windowMs / 1000`), not from per-token refill. -/

/-- One token bucket: remaining tokens and the time of the last refill. -/
structure Bucket where
  tokens : Nat
  lastRefill : Nat
deriving DecidableEq, Repr

/-- Association-list lookup for the in-memory bucket map. -/
def lookupKV : List (Str × Bucket) → Str → Option Bucket
  | [], _ => none
  | (k', v) :: rest, k => if k' = k then some v else lookupKV rest k

/-- Association-list store (replace or insert) for the bucket map. -/
def setKV : List (Str × Bucket) → Str → Bucket → List (Str × Bucket)
  | [], k, v => [(k, v)]
  | (k', v') :: rest, k, v =>
    if k' = k then (k, v) :: rest else (k', v') :: setKV rest k v

/-- Modelled from the spec: `check(key, limit, windowMs)` of the demo
rate limiter.  Returns `(allowed, retryAfterSeconds?)` and the updated
bucket map.  A missing bucket starts full; a bucket refills in full when
`windowMs` has elapsed since its last refill; an allowed call consumes
one token; a denied call reports `retryAfterSeconds = windowMs / 1000`. -/
def checkRateLimit (now : Nat) (store : List (Str × Bucket)) (key : Str)
    (limit windowMs : Nat) : (Bool × Option Nat) × List (Str × Bucket) :=
  let b0 : Bucket :=
    match lookupKV store key with
    | none => ⟨limit, now⟩
    | some b => if windowMs ≤ now - b.lastRefill then ⟨limit, now⟩ else b
  if 0 < b0.tokens then
    ((true, none), setKV store key ⟨b0.tokens - 1, b0.lastRefill⟩)
  else
    ((false, some (windowMs / 1000)), setKV store key b0)

/-- `n` repeated `checkRateLimit` calls for a fixed key, all at the same
instant. -/
def iterCheck (now : Nat) (key : Str) (limit windowMs : Nat) :
    Nat → List (Str × Bucket) → List (Str × Bucket)
  | 0, store => store
  | n + 1, store =>
    (checkRateLimit now (iterCheck now key limit windowMs n store) key
      limit windowMs).2

theorem lookupKV_setKV_eq (s : List (Str × Bucket)) (k : Str) (v : Bucket) :
    lookupKV (setKV s k v) k = some v := by
  induction s with
  | nil => simp [setKV, lookupKV]
  | cons p rest ih =>
    obtain ⟨k', v'⟩ := p
    by_cases hk : k' = k
    · simp [setKV, hk, lookupKV]
    · simp only [setKV, if_neg hk, lookupKV, if_neg hk, ih]

/-- Evaluation of `checkRateLimit` on a key with no bucket yet: the
bucket starts full, the call is allowed and one token is consumed. -/
theorem checkRateLimit_fresh (t0 : Nat) (store : List (Str × Bucket))
    (key : Str) (limit windowMs : Nat)
    (hfresh : lookupKV store key = none) (hlim : 0 < limit) :
    checkRateLimit t0 store key limit windowMs
      = ((true, none), setKV store key ⟨limit - 1, t0⟩) := by
  unfold checkRateLimit
  rw [hfresh]
  dsimp only
  rw [if_pos hlim]

/-- Evaluation of `checkRateLimit` before the window has elapsed, with
tokens remaining: allowed, one token consumed. -/
theorem checkRateLimit_live (t0 : Nat) (store : List (Str × Bucket))
    (key : Str) (limit windowMs k : Nat)
    (ih1 : lookupKV store key = some ⟨limit - k, t0⟩)
    (hwin : 0 < windowMs) (htok : 0 < limit - k) :
    checkRateLimit t0 store key limit windowMs
      = ((true, none), setKV store key ⟨limit - k - 1, t0⟩) := by
  unfold checkRateLimit
  rw [ih1]
  dsimp only
  rw [if_neg (show ¬ windowMs ≤ t0 - t0 by omega)]
  rw [if_pos htok]

/-- Evaluation of `checkRateLimit` on an empty bucket before the window
has elapsed: denied, `retryAfterSeconds = windowMs / 1000`. -/
theorem checkRateLimit_empty (t0 : Nat) (store : List (Str × Bucket))
    (key : Str) (limit windowMs : Nat)
    (ih1 : lookupKV store key = some ⟨0, t0⟩) (hwin : 0 < windowMs) :
    checkRateLimit t0 store key limit windowMs
      = ((false, some (windowMs / 1000)), setKV store key ⟨0, t0⟩) := by
  unfold checkRateLimit
  rw [ih1]
  dsimp only
  rw [if_neg (show ¬ windowMs ≤ t0 - t0 by omega)]
  rw [if_neg (show ¬ (0:Nat) < 0 by omega)]

/-- Evaluation of `checkRateLimit` once the full window has elapsed since
the bucket's last refill: the bucket refills to `limit`, the call is
allowed. -/
theorem checkRateLimit_refill (t0 : Nat) (store : List (Str × Bucket))
    (key : Str) (limit windowMs : Nat) (b : Bucket)
    (ih1 : lookupKV store key = some b) (hb : b.lastRefill = t0)
    (hlim : 0 < limit) :
    checkRateLimit (t0 + windowMs) store key limit windowMs
      = ((true, none), setKV store key ⟨limit - 1, t0 + windowMs⟩) := by
  unfold checkRateLimit
  rw [ih1]
  dsimp only
  rw [if_pos (show windowMs ≤ t0 + windowMs - b.lastRefill by omega)]
  rw [if_pos hlim]

/-- Bucket state after `k ≤ limit` same-instant checks on a fresh key:
the bucket holds `limit - k` tokens, and the `k`-th call (when `k ≥ 1`)
was allowed. -/
theorem iterCheck_invariant (t0 : Nat) (store : List (Str × Bucket))
    (key : Str) (limit windowMs : Nat)
    (hfresh : lookupKV store key = none) (hwin : 0 < windowMs) :
    ∀ k, k ≤ limit →
      lookupKV (iterCheck t0 key limit windowMs k store) key
        = (if k = 0 then none else some ⟨limit - k, t0⟩) ∧
      (k = 0 ∨ (checkRateLimit t0
        (iterCheck t0 key limit windowMs (k - 1) store) key
        limit windowMs).1 = (true, none)) := by
  intro k
  induction k with
  | zero =>
    intro _
    exact ⟨by simpa using hfresh, Or.inl rfl⟩
  | succ k ih =>
    intro hk
    obtain ⟨ih1, -⟩ := ih (Nat.le_of_succ_le hk)
    have hcall : checkRateLimit t0
        (iterCheck t0 key limit windowMs k store) key limit windowMs
        = ((true, none),
           setKV (iterCheck t0 key limit windowMs k store) key
             ⟨limit - (k + 1), t0⟩) := by
      by_cases hk0 : k = 0
      · subst hk0
        simp only [if_pos rfl] at ih1
        rw [checkRateLimit_fresh t0 _ key limit windowMs ih1 (by omega)]
      · rw [if_neg hk0] at ih1
        rw [checkRateLimit_live t0 _ key limit windowMs k ih1 hwin
          (by omega)]
        have harith : limit - k - 1 = limit - (k + 1) := by omega
        rw [harith]
    constructor
    · show lookupKV (checkRateLimit t0 (iterCheck t0 key limit windowMs k
        store) key limit windowMs).2 key = _
      rw [hcall]
      dsimp only
      rw [lookupKV_setKV_eq, if_neg (Nat.succ_ne_zero k)]
    · refine Or.inr ?_
      show (checkRateLimit t0 (iterCheck t0 key limit windowMs k store)
        key limit windowMs).1 = (true, none)
      rw [hcall]

/-- C8: for a fresh rate-limiter key, the first `limit` same-instant
checks are allowed, the `(limit + 1)`-th is denied with
`retryAfterSeconds = windowMs / 1000` (the configured window in
seconds), and once the full window has elapsed the same key is allowed
again. -/
theorem claim_C8 (t0 : Nat) (store : List (Str × Bucket)) (key : Str)
    (limit windowMs : Nat)
    (hfresh : lookupKV store key = none)
    (hlim : 0 < limit) (hwin : 0 < windowMs) :
    (∀ k, k < limit →
      (checkRateLimit t0 (iterCheck t0 key limit windowMs k store) key
        limit windowMs).1 = (true, none)) ∧
    (checkRateLimit t0 (iterCheck t0 key limit windowMs limit store) key
      limit windowMs).1 = (false, some (windowMs / 1000)) ∧
    (checkRateLimit (t0 + windowMs)
      (iterCheck t0 key limit windowMs (limit + 1) store) key
      limit windowMs).1 = (true, none) := by
  have hinv := iterCheck_invariant t0 store key limit windowMs hfresh hwin
  have hlookL : lookupKV (iterCheck t0 key limit windowMs limit store) key
      = some ⟨0, t0⟩ := by
    have h := (hinv limit (Nat.le_refl _)).1
    rw [if_neg (by omega)] at h
    simpa [Nat.sub_self] using h
  have hden := checkRateLimit_empty t0
    (iterCheck t0 key limit windowMs limit store) key limit windowMs
    hlookL hwin
  refine ⟨?_, by rw [hden], ?_⟩
  · intro k hk
    have h := (hinv (k + 1) (by omega)).2
    rcases h with h | h
    · omega
    · simpa using h
  · have hstep : iterCheck t0 key limit windowMs (limit + 1) store
        = setKV (iterCheck t0 key limit windowMs limit store) key ⟨0, t0⟩ := by
      show (checkRateLimit t0 (iterCheck t0 key limit windowMs limit store)
        key limit windowMs).2 = _
      rw [hden]
    have hlook2 : lookupKV
        (iterCheck t0 key limit windowMs (limit + 1) store) key
        = some ⟨0, t0⟩ := by
      rw [hstep, lookupKV_setKV_eq]
    rw [checkRateLimit_refill t0 _ key limit windowMs ⟨0, t0⟩ hlook2 rfl
      hlim]

/-- Witness for C8 at a concrete input: key "k" (code 107), limit 3,
window 60000 ms, fresh (empty) store, checks at time 0 and a final check
at time 60000; the denial reports 60 seconds. -/
theorem claim_C8_witness :
    (lookupKV [] [107] = none) ∧ ((0:Nat) < 3) ∧ ((0:Nat) < 60000) ∧
    ((∀ k, k < 3 →
      (checkRateLimit 0 (iterCheck 0 [107] 3 60000 k []) [107]
        3 60000).1 = (true, none)) ∧
    (checkRateLimit 0 (iterCheck 0 [107] 3 60000 3 []) [107]
      3 60000).1 = (false, some (60000 / 1000)) ∧
    (checkRateLimit (0 + 60000) (iterCheck 0 [107] 3 60000 (3 + 1) [])
      [107] 3 60000).1 = (true, none)) :=
  ⟨by decide, by decide, by decide,
   claim_C8 0 [] [107] 3 60000 (by decide) (by decide) (by decide)⟩

/-! ## Signed state codec (spec section 4.6; `packages/demo/src/lib/session.ts`)

The codec implementation is not under `src/` (only its test is); it is
modelled from spec section 4.6: serialize the payload canonically,
base64url it, HMAC it with a purpose-scoped secret, and join the two
parts with a dot; `decode` splits, recomputes the MAC over the decoded
payload, compares with the constant-time comparator, and answers
`Option` — `none` on any mismatch, malformed structure or decode
failure, so it never throws.  Payloads are taken in canonically
serialized form (byte lists); the MAC (HMAC-SHA256 in the source) is a
function parameter, as the codec's guarantees do not depend on which
keyed MAC is used.  The base64url decoder is strict: it rejects
non-alphabet characters, impossible lengths and non-canonical trailing
bits, so it is injective on its success domain. -/

/-- base64url alphabet, character code for a 6-bit value. -/
def b64Char (v : Nat) : Nat :=
  if v < 26 then v + 65
  else if v < 52 then v + 71
  else if v < 62 then v - 4
  else if v = 62 then 45
  else 95

/-- Inverse of the base64url alphabet. -/
def b64CharVal (c : Nat) : Option Nat :=
  if 65 ≤ c ∧ c ≤ 90 then some (c - 65)
  else if 97 ≤ c ∧ c ≤ 122 then some (c - 71)
  else if 48 ≤ c ∧ c ≤ 57 then some (c + 4)
  else if c = 45 then some 62
  else if c = 95 then some 63
  else none

theorem b64CharVal_b64Char : ∀ v < 64, b64CharVal (b64Char v) = some v := by
  decide

theorem b64Char_val_inv (c v : Nat) (h : b64CharVal c = some v) :
    b64Char v = c ∧ v < 64 := by
  unfold b64CharVal at h
  split_ifs at h <;> injection h with h' <;> subst h' <;>
    constructor <;> first
    | omega
    | (unfold b64Char; split_ifs <;> omega)

theorem b64Char_ne_dot (v : Nat) : b64Char v ≠ 46 := by
  unfold b64Char
  split_ifs <;> omega

/-- Padding-free base64url encoding of a byte list. -/
def b64Encode : List Nat → List Nat
  | [] => []
  | [a] => [b64Char (a / 4), b64Char (a % 4 * 16)]
  | [a, b] =>
    [b64Char (a / 4), b64Char (a % 4 * 16 + b / 16), b64Char (b % 16 * 4)]
  | a :: b :: c :: rest =>
    b64Char (a / 4) :: b64Char (a % 4 * 16 + b / 16) ::
      b64Char (b % 16 * 4 + c / 64) :: b64Char (c % 64) :: b64Encode rest

/-- Strict base64url decoding: rejects non-alphabet characters, bad
lengths and non-canonical trailing bits. -/
def b64Decode : List Nat → Option (List Nat)
  | [] => some []
  | [_] => none
  | [c1, c2] =>
    match b64CharVal c1, b64CharVal c2 with
    | some v1, some v2 =>
      if v2 % 16 = 0 then some [v1 * 4 + v2 / 16] else none
    | _, _ => none
  | [c1, c2, c3] =>
    match b64CharVal c1, b64CharVal c2, b64CharVal c3 with
    | some v1, some v2, some v3 =>
      if v3 % 4 = 0 then
        some [v1 * 4 + v2 / 16, v2 % 16 * 16 + v3 / 4]
      else none
    | _, _, _ => none
  | c1 :: c2 :: c3 :: c4 :: rest =>
    match b64CharVal c1, b64CharVal c2, b64CharVal c3, b64CharVal c4,
        b64Decode rest with
    | some v1, some v2, some v3, some v4, some bs =>
      some ((v1 * 4 + v2 / 16) :: (v2 % 16 * 16 + v3 / 4) ::
        (v3 % 4 * 64 + v4) :: bs)
    | _, _, _, _, _ => none

theorem b64_roundtrip (bs : List Nat) (h : ∀ x ∈ bs, x < 256) :
    b64Decode (b64Encode bs) = some bs := by
  induction bs using b64Encode.induct with
  | case1 => rfl
  | case2 a =>
    have ha : a < 256 := h a (by simp)
    have h1 := b64CharVal_b64Char (a / 4) (by omega)
    have h2 := b64CharVal_b64Char (a % 4 * 16) (by omega)
    simp only [b64Encode, b64Decode, h1, h2]
    rw [if_pos (by omega)]
    congr 2
    omega
  | case3 a b =>
    have ha : a < 256 := h a (by simp)
    have hb : b < 256 := h b (by simp)
    have h1 := b64CharVal_b64Char (a / 4) (by omega)
    have h2 := b64CharVal_b64Char (a % 4 * 16 + b / 16) (by omega)
    have h3 := b64CharVal_b64Char (b % 16 * 4) (by omega)
    simp only [b64Encode, b64Decode, h1, h2, h3]
    rw [if_pos (by omega)]
    congr 1
    congr 1
    · omega
    · congr 1
      omega
  | case4 a b c rest ih =>
    have ha : a < 256 := h a (by simp)
    have hb : b < 256 := h b (by simp)
    have hc : c < 256 := h c (by simp)
    have hrest : ∀ x ∈ rest, x < 256 := fun x hx => h x (by simp [hx])
    have h1 := b64CharVal_b64Char (a / 4) (by omega)
    have h2 := b64CharVal_b64Char (a % 4 * 16 + b / 16) (by omega)
    have h3 := b64CharVal_b64Char (b % 16 * 4 + c / 64) (by omega)
    have h4 := b64CharVal_b64Char (c % 64) (by omega)
    simp only [b64Encode, b64Decode, h1, h2, h3, h4, ih hrest]
    have e1 : a / 4 * 4 + (a % 4 * 16 + b / 16) / 16 = a := by omega
    have e2 : (a % 4 * 16 + b / 16) % 16 * 16 + (b % 16 * 4 + c / 64) / 4
        = b := by omega
    have e3 : (b % 16 * 4 + c / 64) % 4 * 64 + c % 64 = c := by omega
    rw [e1, e2, e3]

theorem b64Decode_inj : ∀ (s bs : List Nat), b64Decode s = some bs →
    s = b64Encode bs ∧ ∀ x ∈ bs, x < 256
  | [], bs, h => by
    simp only [b64Decode, Option.some.injEq] at h
    subst h
    exact ⟨rfl, by simp⟩
  | [c], bs, h => by
    simp only [b64Decode] at h
    exact Option.noConfusion h
  | [c1, c2], bs, h => by
    simp only [b64Decode] at h
    cases hv1 : b64CharVal c1 with
    | none => rw [hv1] at h; simp at h
    | some v1 =>
      cases hv2 : b64CharVal c2 with
      | none => rw [hv1, hv2] at h; simp at h
      | some v2 =>
        rw [hv1, hv2] at h
        dsimp only at h
        by_cases hmod : v2 % 16 = 0
        · rw [if_pos hmod] at h
          injection h with h
          subst h
          obtain ⟨hc1, hb1⟩ := b64Char_val_inv c1 v1 hv1
          obtain ⟨hc2, hb2⟩ := b64Char_val_inv c2 v2 hv2
          have e1 : (v1 * 4 + v2 / 16) / 4 = v1 := by omega
          have e2 : (v1 * 4 + v2 / 16) % 4 * 16 = v2 := by omega
          refine ⟨?_, ?_⟩
          · show _ = b64Encode [v1 * 4 + v2 / 16]
            simp only [b64Encode, e1, e2, hc1, hc2]
          · intro x hx
            simp only [List.mem_singleton] at hx
            omega
        · rw [if_neg hmod] at h
          exact absurd h (by simp)
  | [c1, c2, c3], bs, h => by
    simp only [b64Decode] at h
    cases hv1 : b64CharVal c1 with
    | none => rw [hv1] at h; simp at h
    | some v1 =>
      cases hv2 : b64CharVal c2 with
      | none => rw [hv1, hv2] at h; simp at h
      | some v2 =>
        cases hv3 : b64CharVal c3 with
        | none => rw [hv1, hv2, hv3] at h; simp at h
        | some v3 =>
          rw [hv1, hv2, hv3] at h
          dsimp only at h
          by_cases hmod : v3 % 4 = 0
          · rw [if_pos hmod] at h
            injection h with h
            subst h
            obtain ⟨hc1, hb1⟩ := b64Char_val_inv c1 v1 hv1
            obtain ⟨hc2, hb2⟩ := b64Char_val_inv c2 v2 hv2
            obtain ⟨hc3, hb3⟩ := b64Char_val_inv c3 v3 hv3
            have e1 : (v1 * 4 + v2 / 16) / 4 = v1 := by omega
            have e2 : (v1 * 4 + v2 / 16) % 4 * 16
                + (v2 % 16 * 16 + v3 / 4) / 16 = v2 := by omega
            have e3 : (v2 % 16 * 16 + v3 / 4) % 16 * 4 = v3 := by omega
            refine ⟨?_, ?_⟩
            · show _ = b64Encode [v1 * 4 + v2 / 16, v2 % 16 * 16 + v3 / 4]
              simp only [b64Encode, e1, e2, e3, hc1, hc2, hc3]
            · intro x hx
              simp only [List.mem_cons, List.not_mem_nil, or_false] at hx
              rcases hx with rfl | rfl <;> omega
          · rw [if_neg hmod] at h
            exact absurd h (by simp)
  | c1 :: c2 :: c3 :: c4 :: rest, bs, h => by
    simp only [b64Decode] at h
    cases hv1 : b64CharVal c1 with
    | none => rw [hv1] at h; simp at h
    | some v1 =>
      cases hv2 : b64CharVal c2 with
      | none => rw [hv1, hv2] at h; simp at h
      | some v2 =>
        cases hv3 : b64CharVal c3 with
        | none => rw [hv1, hv2, hv3] at h; simp at h
        | some v3 =>
          cases hv4 : b64CharVal c4 with
          | none => rw [hv1, hv2, hv3, hv4] at h; simp at h
          | some v4 =>
            cases hrest : b64Decode rest with
            | none => rw [hv1, hv2, hv3, hv4, hrest] at h; simp at h
            | some bs2 =>
              rw [hv1, hv2, hv3, hv4, hrest] at h
              dsimp only at h
              injection h with h
              subst h
              obtain ⟨hc1, hb1⟩ := b64Char_val_inv c1 v1 hv1
              obtain ⟨hc2, hb2⟩ := b64Char_val_inv c2 v2 hv2
              obtain ⟨hc3, hb3⟩ := b64Char_val_inv c3 v3 hv3
              obtain ⟨hc4, hb4⟩ := b64Char_val_inv c4 v4 hv4
              obtain ⟨hih1, hih2⟩ := b64Decode_inj rest bs2 hrest
              have e1 : (v1 * 4 + v2 / 16) / 4 = v1 := by omega
              have e2 : (v1 * 4 + v2 / 16) % 4 * 16
                  + (v2 % 16 * 16 + v3 / 4) / 16 = v2 := by omega
              have e3 : (v2 % 16 * 16 + v3 / 4) % 16 * 4
                  + (v3 % 4 * 64 + v4) / 64 = v3 := by omega
              have e4 : (v3 % 4 * 64 + v4) % 64 = v4 := by omega
              refine ⟨?_, ?_⟩
              · show _ = b64Encode ((v1 * 4 + v2 / 16)
                  :: (v2 % 16 * 16 + v3 / 4) :: (v3 % 4 * 64 + v4) :: bs2)
                simp only [b64Encode, e1, e2, e3, e4, hc1, hc2, hc3, hc4]
                rw [← hih1]
              · intro x hx
                simp only [List.mem_cons] at hx
                rcases hx with rfl | rfl | rfl | hx
                · omega
                · omega
                · omega
                · exact hih2 x hx


theorem b64Encode_ne_dot (bs : List Nat) : ∀ c ∈ b64Encode bs, c ≠ 46 := by
  induction bs using b64Encode.induct with
  | case1 => simp [b64Encode]
  | case2 a =>
    intro c hc
    simp only [b64Encode, List.mem_cons, List.not_mem_nil, or_false] at hc
    rcases hc with rfl | rfl <;> exact b64Char_ne_dot _
  | case3 a b =>
    intro c hc
    simp only [b64Encode, List.mem_cons, List.not_mem_nil, or_false] at hc
    rcases hc with rfl | rfl | rfl <;> exact b64Char_ne_dot _
  | case4 a b c rest ih =>
    intro d hd
    simp only [b64Encode, List.mem_cons] at hd
    rcases hd with rfl | rfl | rfl | rfl | hd
    · exact b64Char_ne_dot _
    · exact b64Char_ne_dot _
    · exact b64Char_ne_dot _
    · exact b64Char_ne_dot _
    · exact ih d hd

def splitDot : List Nat → Option (List Nat × List Nat)
  | [] => none
  | c :: rest =>
    if c = 46 then some ([], rest)
    else
      match splitDot rest with
      | none => none
      | some (p, t) => some (c :: p, t)

theorem splitDot_append (p t : List Nat) (hp : ∀ c ∈ p, c ≠ 46) :
    splitDot (p ++ 46 :: t) = some (p, t) := by
  induction p with
  | nil => simp [splitDot]
  | cons c p ih =>
    have hc : c ≠ 46 := hp c (by simp)
    have ih' := ih (fun d hd => hp d (by simp [hd]))
    show splitDot (c :: (p ++ 46 :: t)) = some (c :: p, t)
    unfold splitDot
    rw [if_neg hc, ih']

def encodeSigned (mac : List Nat → List Nat → List Nat)
    (secret payload : List Nat) : List Nat :=
  b64Encode payload ++ 46 :: b64Encode (mac secret payload)

def decodeSigned (mac : List Nat → List Nat → List Nat)
    (secret : List Nat) (s : List Nat) : Option (List Nat) :=
  match splitDot s with
  | none => none
  | some (p, t) =>
    match b64Decode p, b64Decode t with
    | some payload, some tag =>
      if timingSafeEqual (mac secret payload) tag then some payload else none
    | _, _ => none

/-- C5: decoding the signed-envelope encoding of a payload with the same
secret returns the payload unchanged (round trip), and any alteration of
the signature part — any character-code string other than the genuine
encoded MAC, which covers every single-bit flip of it, dots included —
makes `decodeSigned` return `none` (never an exception: the result type
is `Option`).  Stated for every keyed MAC function, every secret and
every byte-list payload. -/
theorem claim_C5 (mac : List Nat → List Nat → List Nat)
    (secret payload : List Nat)
    (hpay : ∀ x ∈ payload, x < 256)
    (hmac : ∀ x ∈ mac secret payload, x < 256) :
    decodeSigned mac secret (encodeSigned mac secret payload) = some payload ∧
    ∀ t, t ≠ b64Encode (mac secret payload) →
      decodeSigned mac secret (b64Encode payload ++ 46 :: t) = none := by
  constructor
  · unfold encodeSigned decodeSigned
    rw [splitDot_append _ _ (b64Encode_ne_dot payload)]
    dsimp only
    rw [b64_roundtrip payload hpay, b64_roundtrip _ hmac]
    dsimp only
    rw [if_pos ((timingSafeEqual_iff _ _).mpr rfl)]
  · intro t hne
    unfold decodeSigned
    rw [splitDot_append _ _ (b64Encode_ne_dot payload)]
    dsimp only
    rw [b64_roundtrip payload hpay]
    cases ht : b64Decode t with
    | none => rfl
    | some tag =>
      dsimp only
      cases hb : timingSafeEqual (mac secret payload) tag with
      | false => simp
      | true =>
        exfalso
        have heq : mac secret payload = tag := (timingSafeEqual_iff _ _).mp hb
        obtain ⟨ht2, -⟩ := b64Decode_inj t tag ht
        exact hne (by rw [ht2, heq])

/-- Witness for C5 at a concrete input: MAC = concatenation of secret and
message, secret `[1]`, payload `[2, 3]`. -/
theorem claim_C5_witness :
    (∀ x ∈ ([2, 3] : List Nat), x < 256) ∧
    (∀ x ∈ (fun (s m : List Nat) => s ++ m) [1] [2, 3], x < 256) ∧
    (decodeSigned (fun (s m : List Nat) => s ++ m) [1]
      (encodeSigned (fun (s m : List Nat) => s ++ m) [1] [2, 3])
      = some [2, 3] ∧
    ∀ t, t ≠ b64Encode ((fun (s m : List Nat) => s ++ m) [1] [2, 3]) →
      decodeSigned (fun (s m : List Nat) => s ++ m) [1]
        (b64Encode [2, 3] ++ 46 :: t) = none) :=
  ⟨by decide, by decide,
   claim_C5 (fun s m => s ++ m) [1] [2, 3] (by decide) (by decide)⟩

/-! ## DPoP proof construction (`createDpopProof`, `src/unnamed/part_012`)

`createDpopProof` (lines 275-304) builds the compact JWT
`base64url(header) . base64url(payload) . base64url(rawSig)` where the
header is `{"alg":"ES256","typ":"dpop+jwt","jwk":<jwk>}`, the payload is
`{"jti":...,"htm":...,"htu":...,"iat":...}` with optional `nonce` and
`ath` members, and the signature is `derToRaw` (lines 314-336) applied
to the DER ECDSA signature produced by `crypto.sign`.  The embedding
takes the JWK in serialized-JSON form, the fresh `jti`/`iat` as explicit
arguments, and the external ECDSA signer as a function `signDer` from
signing input to DER bytes; `node:crypto`'s ECDSA always emits a DER
`SEQUENCE` of the two integers `r, s < 2^256`, which is the `derSig`
shape hypothesised in the claim theorem. -/

/-- Big-endian minimal byte representation of a natural number. -/
def natToBE (x : Nat) : List Nat :=
  if x < 256 then [x]
  else natToBE (x / 256) ++ [x % 256]
termination_by x
decreasing_by exact Nat.div_lt_self (by omega) (by omega)

/-- Big-endian byte-list to natural number. -/
def beToNat (l : List Nat) : Nat :=
  l.foldl (fun acc b => acc * 256 + b) 0

theorem beToNat_append_singleton (l : List Nat) (b : Nat) :
    beToNat (l ++ [b]) = beToNat l * 256 + b := by
  simp [beToNat, List.foldl_append]

theorem beToNat_natToBE (x : Nat) : beToNat (natToBE x) = x := by
  induction x using natToBE.induct with
  | case1 x hx =>
    rw [natToBE, if_pos hx]
    simp [beToNat]
  | case2 x hx ih =>
    rw [natToBE, if_neg hx, beToNat_append_singleton, ih]
    omega

theorem beToNat_replicate_zero (n : Nat) (l : List Nat) :
    beToNat (List.replicate n 0 ++ l) = beToNat l := by
  induction n with
  | zero => simp
  | succ n ih =>
    rw [List.replicate_succ, List.cons_append]
    show beToNat (List.replicate n 0 ++ l) = _
    exact ih

theorem natToBE_length : ∀ k x : Nat, 1 ≤ k → x < 256 ^ k →
    (natToBE x).length ≤ k := by
  intro k
  induction k with
  | zero => omega
  | succ k ih =>
    intro x _ hx
    by_cases hsm : x < 256
    · rw [natToBE, if_pos hsm]
      simp
    · rw [natToBE, if_neg hsm]
      have hk1 : 1 ≤ k := by
        rcases Nat.eq_zero_or_pos k with rfl | h
        · simp at hx; omega
        · exact h
      have hdiv : x / 256 < 256 ^ k := by
        apply Nat.div_lt_of_lt_mul
        have hpow : 256 ^ (k + 1) = 256 ^ k * 256 := pow_succ 256 k
        omega
      have := ih (x / 256) hk1 hdiv
      simp only [List.length_append, List.length_cons, List.length_nil]
      omega

theorem natToBE_lt (x : Nat) : ∀ b ∈ natToBE x, b < 256 := by
  induction x using natToBE.induct with
  | case1 x hx =>
    rw [natToBE, if_pos hx]
    simpa using hx
  | case2 x hx ih =>
    rw [natToBE, if_neg hx]
    intro b hb
    rcases List.mem_append.mp hb with hb | hb
    · exact ih b hb
    · simp only [List.mem_singleton] at hb
      subst hb
      exact Nat.mod_lt _ (by omega)

theorem natToBE_ne_nil (x : Nat) : natToBE x ≠ [] := by
  rw [natToBE]
  split <;> simp

/-- DER INTEGER content bytes: minimal big-endian, prefixed with 0x00
when the leading byte has its high bit set (keeps the value positive). -/
def derInt (x : Nat) : List Nat :=
  if 128 ≤ (natToBE x).headD 0 then 0 :: natToBE x else natToBE x

/-- The DER ECDSA-Sig-Value `SEQUENCE { r INTEGER, s INTEGER }` produced
by a signer: `0x30 [total-len] 0x02 [r-len] [r] 0x02 [s-len] [s]`. -/
def derSig (r s : Nat) : List Nat :=
  48 :: (4 + (derInt r).length + (derInt s).length) ::
    2 :: (derInt r).length :: (derInt r) ++ 2 :: (derInt s).length :: derInt s

/-- `derToRaw` (`src/unnamed/part_012`, lines 314-336): convert a
DER-encoded ECDSA signature to raw `r||s` (64 bytes).  `Buffer.subarray`
becomes `drop`/`take` (both clamp), `buf[i]!` becomes `getD i 0`, and the
two `copy`s into `Buffer.alloc(64)` become zero-padding to 32 bytes per
half. -/
def derToRaw (der : List Nat) : List Nat :=
  let offset1 := if 128 < der.getD 1 0 then 2 + (der.getD 1 0 - 128) else 2
  let rLen := der.getD (offset1 + 1) 0
  let r0 := (der.drop (offset1 + 2)).take rLen
  let offset2 := offset1 + 2 + rLen
  let sLen := der.getD (offset2 + 1) 0
  let s0 := (der.drop (offset2 + 2)).take sLen
  let r1 := if 32 < r0.length then r0.drop (r0.length - 32) else r0
  let s1 := if 32 < s0.length then s0.drop (s0.length - 32) else s0
  (List.replicate (32 - r1.length) 0 ++ r1) ++
    (List.replicate (32 - s1.length) 0 ++ s1)

theorem derInt_length (x : Nat) (hx : x < 2 ^ 256) :
    (derInt x).length ≤ 33 ∧ 1 ≤ (derInt x).length := by
  have hlen : (natToBE x).length ≤ 32 := by
    apply natToBE_length 32 x (by omega)
    have : (256:Nat) ^ 32 = 2 ^ 256 := by norm_num
    omega
  have hne : natToBE x ≠ [] := natToBE_ne_nil x
  have hpos : 1 ≤ (natToBE x).length := by
    cases h : natToBE x with
    | nil => exact absurd h hne
    | cons a l => simp
  unfold derInt
  split
  · simp only [List.length_cons]
    omega
  · omega

theorem replicate_zero_cons (m : Nat) (l : List Nat) :
    List.replicate m 0 ++ 0 :: l = List.replicate (m + 1) 0 ++ l := by
  rw [List.replicate_succ']
  simp

/-- Stripping a possible DER sign byte and re-padding to 32 bytes gives
the zero-extended minimal big-endian bytes. -/
theorem pad_strip (x : Nat) (hx : x < 2 ^ 256) :
    List.replicate
        (32 - (if 32 < (derInt x).length then
          (derInt x).drop ((derInt x).length - 32) else derInt x).length) 0
      ++ (if 32 < (derInt x).length then
          (derInt x).drop ((derInt x).length - 32) else derInt x)
    = List.replicate (32 - (natToBE x).length) 0 ++ natToBE x := by
  have hn : (natToBE x).length ≤ 32 := by
    apply natToBE_length 32 x (by omega)
    have : (256:Nat) ^ 32 = 2 ^ 256 := by norm_num
    omega
  unfold derInt
  by_cases hh : 128 ≤ (natToBE x).headD 0
  · rw [if_pos hh]
    by_cases h32 : 32 < (0 :: natToBE x).length
    · rw [if_pos h32]
      have hn32 : (natToBE x).length = 32 := by
        simp only [List.length_cons] at h32
        omega
      have hdrop : (0 :: natToBE x).length - 32 = 1 := by
        simp only [List.length_cons]
        omega
      rw [hdrop]
      show List.replicate (32 - (natToBE x).length) 0 ++ natToBE x = _
      rfl
    · rw [if_neg h32]
      simp only [List.length_cons]
      rw [replicate_zero_cons]
      have : 32 - ((natToBE x).length + 1) + 1 = 32 - (natToBE x).length := by
        simp only [List.length_cons] at h32
        omega
      rw [this]
  · rw [if_neg hh]
    rw [if_neg (by omega)]

/-- The padded halves of `derToRaw (derSig r s)` recover the minimal
big-endian bytes of `r` and `s`, zero-extended to 32 bytes each. -/
theorem derToRaw_derSig (r s : Nat) (hr : r < 2 ^ 256) (hs : s < 2 ^ 256) :
    derToRaw (derSig r s) =
      (List.replicate (32 - (natToBE r).length) 0 ++ natToBE r) ++
      (List.replicate (32 - (natToBE s).length) 0 ++ natToBE s) := by
  obtain ⟨hrle, hrpos⟩ := derInt_length r hr
  obtain ⟨hsle, hspos⟩ := derInt_length s hs
  have hL : (derSig r s).getD 1 0
      = 4 + (derInt r).length + (derInt s).length := by
    unfold derSig
    simp only [List.cons_append, List.getD_cons_succ, List.getD_cons_zero]
  have hRL : (derSig r s).getD (2 + 1) 0 = (derInt r).length := by
    unfold derSig
    simp only [List.cons_append, List.getD_cons_succ, List.getD_cons_zero]
  have hr0 : List.take (derInt r).length (List.drop (2 + 2) (derSig r s))
      = derInt r := by
    have hdrop4 : List.drop (2 + 2) (derSig r s)
        = derInt r ++ 2 :: (derInt s).length :: derInt s := by
      unfold derSig
      simp only [List.cons_append, List.drop_succ_cons, List.drop_zero]
    rw [hdrop4, List.take_left]
  have hSL : (derSig r s).getD (2 + 2 + (derInt r).length + 1) 0
      = (derInt s).length := by
    have hform : derSig r s
        = (48 :: (4 + (derInt r).length + (derInt s).length) ::
            2 :: (derInt r).length :: derInt r)
          ++ 2 :: (derInt s).length :: derInt s := by
      unfold derSig
      simp [List.cons_append]
    rw [hform, List.getD_append_right]
    · simp only [List.length_cons]
      have harith : 2 + 2 + (derInt r).length + 1
          - ((derInt r).length + 1 + 1 + 1 + 1) = 1 := by omega
      rw [harith]
      simp [List.getD_cons_succ, List.getD_cons_zero]
    · simp only [List.length_cons]
      omega
  have hs0 : List.take (derInt s).length
      (List.drop (2 + 2 + (derInt r).length + 2) (derSig r s))
      = derInt s := by
    have hform : derSig r s
        = (48 :: (4 + (derInt r).length + (derInt s).length) ::
            2 :: (derInt r).length :: derInt r
              ++ [2, (derInt s).length])
          ++ derInt s := by
      unfold derSig
      simp
    rw [hform]
    have hlen : (48 :: (4 + (derInt r).length + (derInt s).length) ::
        2 :: (derInt r).length :: derInt r
          ++ [2, (derInt s).length]).length
        = 2 + 2 + (derInt r).length + 2 := by
      simp only [List.length_append, List.length_cons, List.length_nil]
      omega
    rw [← hlen, List.drop_left]
    exact List.take_length _
  unfold derToRaw
  dsimp only
  rw [hL]
  rw [if_neg (show ¬ 128 < 4 + (derInt r).length + (derInt s).length by
    omega)]
  rw [hRL, hr0, hSL, hs0]
  rw [pad_strip r hr, pad_strip s hs]

/-- Read a raw 64-byte `r||s` signature back as the two big-endian
integers (the verifier's view of the third JWT part). -/
def rawToPair (raw : List Nat) : Nat × Nat :=
  (beToNat (raw.take 32), beToNat (raw.drop 32))

theorem natToBE_length_le_32 (x : Nat) (hx : x < 2 ^ 256) :
    (natToBE x).length ≤ 32 := by
  apply natToBE_length 32 x (by omega)
  have : (256:Nat) ^ 32 = 2 ^ 256 := by norm_num
  omega

theorem padded_length (x : Nat) (hx : x < 2 ^ 256) :
    (List.replicate (32 - (natToBE x).length) 0 ++ natToBE x).length = 32 := by
  have := natToBE_length_le_32 x hx
  simp only [List.length_append, List.length_replicate]
  omega

theorem derToRaw_derSig_length (r s : Nat) (hr : r < 2 ^ 256)
    (hs : s < 2 ^ 256) : (derToRaw (derSig r s)).length = 64 := by
  rw [derToRaw_derSig r s hr hs]
  simp only [List.length_append, List.length_replicate]
  have h1 := natToBE_length_le_32 r hr
  have h2 := natToBE_length_le_32 s hs
  omega

theorem take32_append (A B : List Nat) (hA : A.length = 32) :
    (A ++ B).take 32 = A := by
  rw [← hA, List.take_left]

theorem drop32_append (A B : List Nat) (hA : A.length = 32) :
    (A ++ B).drop 32 = B := by
  rw [← hA, List.drop_left]

theorem rawToPair_derToRaw (r s : Nat) (hr : r < 2 ^ 256)
    (hs : s < 2 ^ 256) :
    rawToPair (derToRaw (derSig r s)) = (r, s) := by
  rw [derToRaw_derSig r s hr hs]
  unfold rawToPair
  rw [take32_append _ _ (padded_length r hr),
    drop32_append _ _ (padded_length r hr)]
  rw [beToNat_replicate_zero, beToNat_replicate_zero, beToNat_natToBE,
    beToNat_natToBE]

/-- Decimal digit characters of a natural number. -/
def natDecimal (n : Nat) : List Nat :=
  if n < 10 then [48 + n] else natDecimal (n / 10) ++ [48 + n % 10]
termination_by n
decreasing_by exact Nat.div_lt_self (by omega) (by omega)

theorem natDecimal_bounds (n : Nat) :
    ∀ c ∈ natDecimal n, 48 ≤ c ∧ c ≤ 57 := by
  induction n using natDecimal.induct with
  | case1 n hn =>
    rw [natDecimal, if_pos hn]
    intro c hc
    simp only [List.mem_singleton] at hc
    omega
  | case2 n hn ih =>
    rw [natDecimal, if_neg hn]
    intro c hc
    rcases List.mem_append.mp hc with hc | hc
    · exact ih c hc
    · simp only [List.mem_singleton] at hc
      have := Nat.mod_lt n (show 0 < 10 by omega)
      omega

/-- Splitting a marked list at the first occurrence of the marker. -/
theorem append_mark_inj (m : Nat) : ∀ (a b x y : List Nat),
    (∀ c ∈ a, c ≠ m) → (∀ c ∈ b, c ≠ m) →
    a ++ m :: x = b ++ m :: y → a = b ∧ x = y
  | [], [], x, y, _, _, h => by
    simp only [List.nil_append, List.cons.injEq, true_and] at h
    exact ⟨rfl, h⟩
  | [], c :: b, x, y, _, hb, h => by
    simp only [List.nil_append, List.cons_append, List.cons.injEq] at h
    exact absurd h.1.symm (hb c (by simp))
  | c :: a, [], x, y, ha, _, h => by
    simp only [List.nil_append, List.cons_append, List.cons.injEq] at h
    exact absurd h.1 (ha c (by simp))
  | c :: a, d :: b, x, y, ha, hb, h => by
    simp only [List.cons_append, List.cons.injEq] at h
    obtain ⟨rfl, h2⟩ := h
    obtain ⟨rfl, rfl⟩ := append_mark_inj m a b x y
      (fun e he => ha e (by simp [he])) (fun e he => hb e (by simp [he])) h2
    exact ⟨rfl, rfl⟩

/-- `{"alg":"ES256","typ":"dpop+jwt","jwk":` as character codes. -/
def headerPre : List Nat :=
  [123, 34, 97, 108, 103, 34, 58, 34, 69, 83, 50, 53, 54, 34, 44,
   34, 116, 121, 112, 34, 58, 34, 100, 112, 111, 112, 43, 106, 119, 116,
   34, 44, 34, 106, 119, 107, 34, 58]

/-- The serialized DPoP JWT header `{"alg":"ES256","typ":"dpop+jwt",
"jwk":<jwk>}` for a serialized public JWK. -/
def headerBytes (jwk : List Nat) : List Nat :=
  headerPre ++ jwk ++ [125]

theorem headerBytes_inj (j1 j2 : List Nat)
    (h : headerBytes j1 = headerBytes j2) : j1 = j2 := by
  unfold headerBytes at h
  rw [List.append_assoc, List.append_assoc] at h
  have h2 := List.append_cancel_left h
  have hlen : j1.length = j2.length := by
    have := congrArg List.length h2
    simp only [List.length_append, List.length_cons, List.length_nil] at this
    omega
  exact (List.append_inj h2 hlen).1

/-- `{"jti":"` -/
def pJti : List Nat := [123, 34, 106, 116, 105, 34, 58, 34]
/-- `","htm":"` -/
def pHtm : List Nat := [34, 44, 34, 104, 116, 109, 34, 58, 34]
/-- `","htu":"` -/
def pHtu : List Nat := [34, 44, 34, 104, 116, 117, 34, 58, 34]
/-- `","iat":` -/
def pIat : List Nat := [34, 44, 34, 105, 97, 116, 34, 58]
/-- `,"nonce":"` -/
def pNonce : List Nat := [44, 34, 110, 111, 110, 99, 101, 34, 58, 34]
/-- `,"ath":"` -/
def pAth : List Nat := [44, 34, 97, 116, 104, 34, 58, 34]

/-- The serialized DPoP JWT payload `{"jti":J,"htm":M,"htu":U,"iat":N}`
with the optional `nonce` and `ath` members, in `JSON.stringify`
insertion order (`src/unnamed/part_012`, lines 285-297). -/
def payloadBytes (jti htm htu : List Nat) (iat : Nat)
    (nonce ath : Option (List Nat)) : List Nat :=
  pJti ++ jti ++ pHtm ++ htm ++ pHtu ++ htu ++ pIat ++ natDecimal iat
  ++ (match nonce with
      | none => []
      | some n => pNonce ++ n ++ [34])
  ++ (match ath with
      | none => []
      | some a => pAth ++ a ++ [34])
  ++ [125]

theorem payloadBytes_inj (j1 m1 u1 j2 m2 u2 : List Nat) (i1 i2 : Nat)
    (n1 a1 n2 a2 : Option (List Nat))
    (hj1 : ∀ c ∈ j1, c ≠ 34) (hj2 : ∀ c ∈ j2, c ≠ 34)
    (hm1 : ∀ c ∈ m1, c ≠ 34) (hm2 : ∀ c ∈ m2, c ≠ 34)
    (hu1 : ∀ c ∈ u1, c ≠ 34) (hu2 : ∀ c ∈ u2, c ≠ 34)
    (h : payloadBytes j1 m1 u1 i1 n1 a1 = payloadBytes j2 m2 u2 i2 n2 a2) :
    j1 = j2 ∧ m1 = m2 ∧ u1 = u2 := by
  unfold payloadBytes at h
  simp only [List.append_assoc] at h
  replace h := List.append_cancel_left h
  have hsepM : ∀ X : List Nat, pHtm ++ X
      = 34 :: ([44, 34, 104, 116, 109, 34, 58, 34] ++ X) := fun X => rfl
  rw [hsepM, hsepM] at h
  obtain ⟨rfl, hA⟩ := append_mark_inj 34 j1 j2 _ _ hj1 hj2 h
  clear h
  replace hA := List.append_cancel_left hA
  have hsepU : ∀ X : List Nat, pHtu ++ X
      = 34 :: ([44, 34, 104, 116, 117, 34, 58, 34] ++ X) := fun X => rfl
  rw [hsepU, hsepU] at hA
  obtain ⟨rfl, hB⟩ := append_mark_inj 34 m1 m2 _ _ hm1 hm2 hA
  clear hA
  replace hB := List.append_cancel_left hB
  have hsepI : ∀ X : List Nat, pIat ++ X
      = 34 :: ([44, 34, 105, 97, 116, 34, 58] ++ X) := fun X => rfl
  rw [hsepI, hsepI] at hB
  obtain ⟨rfl, -⟩ := append_mark_inj 34 u1 u2 _ _ hu1 hu2 hB
  exact ⟨rfl, rfl, rfl⟩

/-- Split a character-code list at the dots (code 46), the JWT compact
serialization separator. -/
def splitDots : List Nat → List (List Nat)
  | [] => [[]]
  | c :: rest =>
    if c = 46 then [] :: splitDots rest
    else
      match splitDots rest with
      | [] => [[c]]
      | p :: ps => (c :: p) :: ps

theorem splitDots_no_dot (p : List Nat) (hp : ∀ c ∈ p, c ≠ 46) :
    splitDots p = [p] := by
  induction p with
  | nil => rfl
  | cons c rest ih =>
    have hc : c ≠ 46 := hp c (by simp)
    have ih' := ih (fun d hd => hp d (by simp [hd]))
    unfold splitDots
    rw [if_neg hc, ih']

theorem splitDots_sep (p t : List Nat) (hp : ∀ c ∈ p, c ≠ 46) :
    splitDots (p ++ 46 :: t) = p :: splitDots t := by
  induction p with
  | nil =>
    show splitDots (46 :: t) = [] :: splitDots t
    have heq : splitDots (46 :: t)
        = if (46:Nat) = 46 then [] :: splitDots t
          else match splitDots t with
            | [] => [[46]]
            | p :: ps => (46 :: p) :: ps := rfl
    rw [heq, if_pos rfl]
  | cons c rest ih =>
    have hc : c ≠ 46 := hp c (by simp)
    have ih' := ih (fun d hd => hp d (by simp [hd]))
    show splitDots (c :: (rest ++ 46 :: t)) = (c :: rest) :: splitDots t
    have heq : splitDots (c :: (rest ++ 46 :: t))
        = if c = 46 then [] :: splitDots (rest ++ 46 :: t)
          else match splitDots (rest ++ 46 :: t) with
            | [] => [[c]]
            | p :: ps => (c :: p) :: ps := rfl
    rw [heq, if_neg hc, ih']

theorem headerPre_lt : ∀ c ∈ headerPre, c < 256 := by decide

theorem headerBytes_lt (jwk : List Nat) (h : ∀ c ∈ jwk, c < 256) :
    ∀ c ∈ headerBytes jwk, c < 256 := by
  intro c hc
  unfold headerBytes at hc
  rcases List.mem_append.mp hc with hc | hc
  · rcases List.mem_append.mp hc with hc | hc
    · exact headerPre_lt c hc
    · exact h c hc
  · simp only [List.mem_singleton] at hc
    omega

theorem payloadBytes_lt (jti htm htu : List Nat) (iat : Nat)
    (nonce ath : Option (List Nat))
    (hj : ∀ c ∈ jti, c < 256) (hm : ∀ c ∈ htm, c < 256)
    (hu : ∀ c ∈ htu, c < 256)
    (hn : ∀ n, nonce = some n → ∀ c ∈ n, c < 256)
    (ha : ∀ a, ath = some a → ∀ c ∈ a, c < 256) :
    ∀ c ∈ payloadBytes jti htm htu iat nonce ath, c < 256 := by
  intro c hc
  unfold payloadBytes at hc
  simp only [List.append_assoc, List.mem_append] at hc
  rcases hc with hc | hc | hc | hc | hc | hc | hc | hc | hc | hc | hc
  · revert hc
    show c ∈ pJti → c < 256
    revert c
    decide
  · exact hj c hc
  · revert hc
    show c ∈ pHtm → c < 256
    revert c
    decide
  · exact hm c hc
  · revert hc
    show c ∈ pHtu → c < 256
    revert c
    decide
  · exact hu c hc
  · revert hc
    show c ∈ pIat → c < 256
    revert c
    decide
  · have := natDecimal_bounds iat c hc
    omega
  · cases hno : nonce with
    | none =>
      rw [hno] at hc
      simp at hc
    | some n =>
      rw [hno] at hc
      simp only [List.append_assoc, List.mem_append] at hc
      rcases hc with hc | hc | hc
      · revert hc
        show c ∈ pNonce → c < 256
        revert c
        decide
      · exact hn n hno c hc
      · simp only [List.mem_singleton] at hc
        omega
  · cases hat : ath with
    | none =>
      rw [hat] at hc
      simp at hc
    | some a =>
      rw [hat] at hc
      simp only [List.append_assoc, List.mem_append] at hc
      rcases hc with hc | hc | hc
      · revert hc
        show c ∈ pAth → c < 256
        revert c
        decide
      · exact ha a hat c hc
      · simp only [List.mem_singleton] at hc
        omega
  · simp only [List.mem_singleton] at hc
    omega

/-- `createDpopProof` (`src/unnamed/part_012`, lines 275-304): build the
three-part compact JWT.  `signDer` is the external ECDSA-SHA256 signer
(`crypto.sign`), applied to the ASCII signing input
`base64url(header) ++ "." ++ base64url(payload)`; its DER output runs
through `derToRaw` before the final base64url encoding. -/
def createDpopProof (signDer : List Nat → List Nat)
    (jwk method url jti : List Nat) (iat : Nat)
    (nonce ath : Option (List Nat)) : List Nat :=
  (b64Encode (headerBytes jwk) ++
    46 :: b64Encode (payloadBytes jti method url iat nonce ath)) ++
  46 :: b64Encode (derToRaw (signDer
    (b64Encode (headerBytes jwk) ++
      46 :: b64Encode (payloadBytes jti method url iat nonce ath))))

theorem derToRaw_derSig_lt (r s : Nat) (hr : r < 2 ^ 256)
    (hs : s < 2 ^ 256) : ∀ c ∈ derToRaw (derSig r s), c < 256 := by
  rw [derToRaw_derSig r s hr hs]
  intro c hc
  rcases List.mem_append.mp hc with hc | hc <;>
    rcases List.mem_append.mp hc with hc | hc
  · rw [List.eq_of_mem_replicate hc]
    omega
  · exact natToBE_lt r c hc
  · rw [List.eq_of_mem_replicate hc]
    omega
  · exact natToBE_lt s c hc

/-- C6: `createDpopProof` always produces exactly three dot-separated
base64url parts; the first decodes to the header JSON
`{"alg":"ES256","typ":"dpop+jwt","jwk":<the input jwk>}` (and the header
serialization is injective in the jwk, so the decoded header determines
it); the second decodes to the payload JSON whose `htm` and `htu`
members are exactly the input method and url (again injectively); the
third decodes to exactly 64 bytes in raw `r||s` format — not DER — whose
big-endian halves are precisely the integers `(r, s)` produced by the
ECDSA-SHA256 signer over the first two parts, so any verifier accepting
the signer's `(r, s)` accepts the embedded signature against the
embedded jwk. -/
theorem claim_C6 (signDer : List Nat → List Nat)
    (jwk method url jti : List Nat) (iat : Nat)
    (nonce ath : Option (List Nat)) (r s : Nat)
    (hjwk : ∀ c ∈ jwk, c < 256)
    (hjti : ∀ c ∈ jti, c < 256)
    (hmtd : ∀ c ∈ method, c < 256)
    (hurl : ∀ c ∈ url, c < 256)
    (hnon : ∀ n, nonce = some n → ∀ c ∈ n, c < 256)
    (hath : ∀ a, ath = some a → ∀ c ∈ a, c < 256)
    (hsig : signDer (b64Encode (headerBytes jwk) ++
      46 :: b64Encode (payloadBytes jti method url iat nonce ath))
      = derSig r s)
    (hr : r < 2 ^ 256) (hs : s < 2 ^ 256) :
    splitDots (createDpopProof signDer jwk method url jti iat nonce ath)
      = [b64Encode (headerBytes jwk),
         b64Encode (payloadBytes jti method url iat nonce ath),
         b64Encode (derToRaw (derSig r s))] ∧
    b64Decode (b64Encode (headerBytes jwk)) = some (headerBytes jwk) ∧
    (∀ jwk2, headerBytes jwk2 = headerBytes jwk → jwk2 = jwk) ∧
    b64Decode (b64Encode (payloadBytes jti method url iat nonce ath))
      = some (payloadBytes jti method url iat nonce ath) ∧
    (∀ j2 m2 u2 i2 n2 a2, (∀ c ∈ j2, c ≠ 34) → (∀ c ∈ m2, c ≠ 34) →
      (∀ c ∈ u2, c ≠ 34) → (∀ c ∈ jti, c ≠ 34) → (∀ c ∈ method, c ≠ 34) →
      (∀ c ∈ url, c ≠ 34) →
      payloadBytes j2 m2 u2 i2 n2 a2
        = payloadBytes jti method url iat nonce ath →
      m2 = method ∧ u2 = url) ∧
    b64Decode (b64Encode (derToRaw (derSig r s)))
      = some (derToRaw (derSig r s)) ∧
    (derToRaw (derSig r s)).length = 64 ∧
    rawToPair (derToRaw (derSig r s)) = (r, s) ∧
    (∀ Verifies : Nat × Nat → Prop, Verifies (r, s) →
      Verifies (rawToPair (derToRaw (signDer
        (b64Encode (headerBytes jwk) ++
          46 :: b64Encode (payloadBytes jti method url iat nonce ath)))))) := by
  refine ⟨?_, ?_, ?_, ?_, ?_, ?_, ?_, ?_, ?_⟩
  · unfold createDpopProof
    rw [hsig, List.append_assoc, List.cons_append]
    rw [splitDots_sep _ _ (b64Encode_ne_dot (headerBytes jwk))]
    rw [splitDots_sep _ _ (b64Encode_ne_dot
      (payloadBytes jti method url iat nonce ath))]
    rw [splitDots_no_dot _ (b64Encode_ne_dot (derToRaw (derSig r s)))]
  · exact b64_roundtrip _ (headerBytes_lt jwk hjwk)
  · intro jwk2 h2
    exact headerBytes_inj jwk2 jwk h2
  · exact b64_roundtrip _
      (payloadBytes_lt jti method url iat nonce ath hjti hmtd hurl hnon hath)
  · intro j2 m2 u2 i2 n2 a2 h34j2 h34m2 h34u2 h34j h34m h34u heq
    have := payloadBytes_inj j2 m2 u2 jti method url i2 iat n2 a2 nonce ath
      h34j2 h34j h34m2 h34m h34u2 h34u heq
    exact ⟨this.2.1, this.2.2⟩
  · exact b64_roundtrip _ (derToRaw_derSig_lt r s hr hs)
  · exact derToRaw_derSig_length r s hr hs
  · exact rawToPair_derToRaw r s hr hs
  · intro V hv
    rw [hsig, rawToPair_derToRaw r s hr hs]
    exact hv

/-- Witness for C6 at a concrete input: jwk "k" (107), method "P" (80),
url "u" (117), jti "j" (106), iat 0, no nonce, no access-token hash, and
a signer that returns the DER encoding of `(r, s) = (1, 1)`. -/
theorem claim_C6_witness :
    (∀ c ∈ ([107] : List Nat), c < 256) ∧
    (∀ c ∈ ([80] : List Nat), c < 256) ∧
    ((fun _ : List Nat => derSig 1 1)
      (b64Encode (headerBytes [107]) ++
        46 :: b64Encode (payloadBytes [106] [80] [117] 0 none none))
      = derSig 1 1) ∧
    ((1:Nat) < 2 ^ 256) ∧
    (splitDots (createDpopProof (fun _ => derSig 1 1) [107] [80] [117]
        [106] 0 none none)
      = [b64Encode (headerBytes [107]),
         b64Encode (payloadBytes [106] [80] [117] 0 none none),
         b64Encode (derToRaw (derSig 1 1))] ∧
    b64Decode (b64Encode (headerBytes [107])) = some (headerBytes [107]) ∧
    (∀ jwk2, headerBytes jwk2 = headerBytes [107] → jwk2 = [107]) ∧
    b64Decode (b64Encode (payloadBytes [106] [80] [117] 0 none none))
      = some (payloadBytes [106] [80] [117] 0 none none) ∧
    (∀ j2 m2 u2 i2 n2 a2, (∀ c ∈ j2, c ≠ 34) → (∀ c ∈ m2, c ≠ 34) →
      (∀ c ∈ u2, c ≠ 34) → (∀ c ∈ ([106] : List Nat), c ≠ 34) →
      (∀ c ∈ ([80] : List Nat), c ≠ 34) →
      (∀ c ∈ ([117] : List Nat), c ≠ 34) →
      payloadBytes j2 m2 u2 i2 n2 a2
        = payloadBytes [106] [80] [117] 0 none none →
      m2 = [80] ∧ u2 = [117]) ∧
    b64Decode (b64Encode (derToRaw (derSig 1 1)))
      = some (derToRaw (derSig 1 1)) ∧
    (derToRaw (derSig 1 1)).length = 64 ∧
    rawToPair (derToRaw (derSig 1 1)) = (1, 1) ∧
    (∀ Verifies : Nat × Nat → Prop, Verifies (1, 1) →
      Verifies (rawToPair (derToRaw ((fun _ => derSig 1 1)
        (b64Encode (headerBytes [107]) ++
          46 :: b64Encode (payloadBytes [106] [80] [117] 0 none none))))))) :=
  ⟨by decide, by decide, rfl, by norm_num,
   claim_C6 (fun _ => derSig 1 1) [107] [80] [117] [106] 0 none none 1 1
     (by decide) (by decide) (by decide) (by decide)
     (fun n h => Option.noConfusion h) (fun a h => Option.noConfusion h)
     rfl (by norm_num) (by norm_num)⟩

/-! ## DPoP nonce retry (`fetchWithDpopRetry`, `src/unnamed/part_012`) -/

/-- The caller-visible part of an HTTP response: `res.ok`, `res.status`
and the `dpop-nonce` header (absent = `none`). -/
structure HttpResp where
  ok : Bool
  status : Nat
  dpopNonce : Option Str
deriving DecidableEq, Repr

/-- `fetchWithDpopRetry` (`src/unnamed/part_012`, lines 346-379): POST
once with a nonce-free proof; if the response is not ok and carries a
`dpop-nonce` header and has status 400, retry exactly once with a proof
rebuilt to carry that nonce, and return the retry response as-is (a
failing retry is terminal — the function returns, it never loops).
`responses` abstracts the endpoint as the response to the k-th request;
the first component of the result records the proofs sent, each by the
nonce its payload carries. -/
def fetchWithDpopRetry (responses : Nat → HttpResp) :
    List (Option Str) × HttpResp :=
  let r0 := responses 0
  if r0.ok then ([none], r0)
  else
    match r0.dpopNonce with
    | some n =>
      if r0.status = 400 then ([none, some n], responses 1)
      else ([none], r0)
    | none => ([none], r0)

/-- C7, counterexample to the claim as stated: a first response that is a
rejection carrying a `dpop-nonce` header but with status 401 gets no
retry at all — `fetchWithDpopRetry` retries only when the status is
exactly 400, so only one request is issued where the claim demands a
retry. -/
theorem claim_C7_counterexample :
    ((fun _ : Nat => HttpResp.mk false 401 (some [110])) 0).ok = false ∧
    ((fun _ : Nat => HttpResp.mk false 401 (some [110])) 0).dpopNonce
      = some [110] ∧
    (fetchWithDpopRetry (fun _ => HttpResp.mk false 401 (some [110]))).1
      = [none] ∧
    ([none] : List (Option Str)).length = 1 ∧ (1:Nat) ≠ 2 := by
  refine ⟨rfl, rfl, rfl, rfl, by omega⟩

/-- C7 (amended): a single logical DPoP-protected request issues at most
two HTTP requests; the first is always sent with a nonce-free proof; if
the first response is a rejection with HTTP status 400 carrying a
`dpop-nonce` header, exactly one retry is made with a proof rebuilt to
include that nonce and the retry's response is returned as-is (a retry
failure is terminal, never retried again); any other first response —
success, or a rejection without a nonce, or a rejection with a nonce but
a status other than 400 — gets no retry. -/
theorem claim_C7 (responses : Nat → HttpResp) :
    (fetchWithDpopRetry responses).1.length ≤ 2 ∧
    (fetchWithDpopRetry responses).1.headD (some []) = none ∧
    ((responses 0).ok = true →
      fetchWithDpopRetry responses = ([none], responses 0)) ∧
    (∀ n, (responses 0).ok = false → (responses 0).dpopNonce = some n →
      (responses 0).status = 400 →
      fetchWithDpopRetry responses = ([none, some n], responses 1)) ∧
    ((responses 0).ok = false →
      ((responses 0).dpopNonce = none ∨ (responses 0).status ≠ 400) →
      fetchWithDpopRetry responses = ([none], responses 0)) := by
  refine ⟨?_, ?_, ?_, ?_, ?_⟩
  · unfold fetchWithDpopRetry
    dsimp only
    repeat' split
    all_goals simp
  · unfold fetchWithDpopRetry
    dsimp only
    repeat' split
    all_goals simp
  · intro hok
    unfold fetchWithDpopRetry
    dsimp only
    rw [if_pos hok]
  · intro n hok hn h400
    unfold fetchWithDpopRetry
    dsimp only
    rw [if_neg (by simp [hok]), hn]
    dsimp only
    rw [if_pos h400]
  · intro hok hcase
    unfold fetchWithDpopRetry
    dsimp only
    rw [if_neg (by simp [hok])]
    rcases hcase with hn | h400
    · rw [hn]
    · cases hn : (responses 0).dpopNonce with
      | none => rfl
      | some n =>
        dsimp only
        rw [if_neg h400]

/-- Witness for C7 at a concrete input: the endpoint rejects the first
request with 400 and nonce "n" (110) and accepts the second. -/
theorem claim_C7_witness :
    ((fun k : Nat => if k = 0 then HttpResp.mk false 400 (some [110])
        else HttpResp.mk true 201 none) 0).ok = false ∧
    (((fun k : Nat => if k = 0 then HttpResp.mk false 400 (some [110])
        else HttpResp.mk true 201 none) 0).dpopNonce = some [110]) ∧
    ((fetchWithDpopRetry (fun k => if k = 0 then
        HttpResp.mk false 400 (some [110])
        else HttpResp.mk true 201 none)).1.length ≤ 2 ∧
      (fetchWithDpopRetry (fun k => if k = 0 then
        HttpResp.mk false 400 (some [110])
        else HttpResp.mk true 201 none)).1.headD (some []) = none) ∧
    (fetchWithDpopRetry (fun k => if k = 0 then
        HttpResp.mk false 400 (some [110])
        else HttpResp.mk true 201 none)
      = ([none, some [110]], HttpResp.mk true 201 none)) :=
  ⟨by decide, by decide,
   ⟨(claim_C7 (fun k => if k = 0 then HttpResp.mk false 400 (some [110])
      else HttpResp.mk true 201 none)).1,
    (claim_C7 (fun k => if k = 0 then HttpResp.mk false 400 (some [110])
      else HttpResp.mk true 201 none)).2.1⟩,
   by
    have h := (claim_C7 (fun k => if k = 0 then
      HttpResp.mk false 400 (some [110])
      else HttpResp.mk true 201 none)).2.2.2.1 [110]
      (by decide) (by decide) (by decide)
    simpa using h⟩
